import Mathlib

/-!
# Planetarium-3Dweb: the orbital position engine of `src/App.js`

A shallow embedding of `solveKepler`, `calculatePosition` and the point loop of
`createOrbitLine`, and the properties of the specification that concern them.

Modelling decisions.

* The functions are written once, over a number type `α` that only has to offer
  the operations the source uses (`+`, `-`, `*`, `/`, `<`, the literals, and the
  record `MathEnv α` with `Math.sin`, `Math.cos`, `Math.sqrt`, `Math.PI`, `Math.abs`
  and the operator `%`).  They are instantiated twice:
  `realMath` computes with exact real numbers, and `binary64Math` computes on
  `Binary64`, where every arithmetic operation is followed by the rounding to the
  nearest double (ties to even) of IEEE-754.
* In both instances a division by zero is answered with `0`, where JavaScript
  answers with `NaN` or an infinity; `NaN`, the infinities, overflow and subnormal
  numbers are outside the model.  The divisor `1 - e * Math.cos(E)` of the solver
  is never `0` for `0 ≤ e < 1`.
* The `while` loop of `solveKepler` has no iteration bound in the source.  The
  model runs it with a budget of loop-body executions (`fuel`) and answers `none`
  when the budget is used up while the loop condition still holds; `some E` is a
  run of the source that left the loop and returned `E`.
-/

namespace Planetarium

/-- The members of JavaScript's `Math` object that `App.js` uses, and the
remainder operator `%`. -/
structure MathEnv (α : Type) where
  /-- The function `Math.sin`. -/
  sin : α → α
  /-- The function `Math.cos`. -/
  cos : α → α
  /-- The function `Math.sqrt`. -/
  sqrt : α → α
  /-- The constant `Math.PI`. -/
  PI : α
  /-- The function `Math.abs`. -/
  abs : α → α
  /-- The operator `%` on numbers. -/
  mod : α → α → α

/-- A point with three coordinates: the object literal `{ x, y, z }` returned by
`calculatePosition` and the `THREE.Vector3` pushed by `createOrbitLine`. -/
structure Vec3 (α : Type) where
  x : α
  y : α
  z : α

section Remainder

variable {α : Type} [LinearOrderedField α] [FloorRing α]

/-- Rounding towards zero, the integer quotient behind JavaScript's `%`. -/
def truncate (x : α) : ℤ :=
  if 0 ≤ x then ⌊x⌋ else ⌈x⌉

/-- JavaScript's `x % y` as a function of the exact values of `x` and `y`: the
remainder of the division truncated towards zero, so that a non-zero result has
the sign of the dividend `x`.  (On doubles `%` is exact: it returns this number
without rounding.) -/
def jsMod (x y : α) : α :=
  x - y * (truncate (x / y) : α)

end Remainder

section Model

variable {α : Type} [Zero α] [One α] [Add α] [Sub α] [Mul α] [Div α] [Neg α] [LT α]
  [DecidableRel (fun a b : α => a < b)] [NatCast α]
  [OfNat α 180] [OfNat α 360] [OfNat α 36525] [OfNat α 1000000]

/-- The default value `1e-6` of the parameter `tol` of `solveKepler`. -/
def defaultTol : α := 1 / 1000000

/-- The function `THREE.MathUtils.degToRad` of the three.js library:
`degrees * DEG2RAD` with `DEG2RAD = Math.PI / 180`. -/
def degToRad (m : MathEnv α) (degrees : α) : α :=
  degrees * (m.PI / 180)

/-- The Newton step of `solveKepler` (the first statement of the loop body):
`deltaE = (M - (E - e * Math.sin(E))) / (1 - e * Math.cos(E))`. -/
def newtonStep (m : MathEnv α) (M e E : α) : α :=
  (M - (E - e * m.sin E)) / (1 - e * m.cos E)

/-- The `while (Math.abs(deltaE) > tol)` loop of `solveKepler`, started in the
state `(E, deltaE)`, with a budget of `fuel` executions of the loop body. -/
def keplerLoop (m : MathEnv α) (M e tol : α) : Nat → α → α → Option α
  | 0, E, deltaE => if m.abs deltaE > tol then none else some E
  | fuel + 1, E, deltaE =>
    if m.abs deltaE > tol then
      keplerLoop m M e tol fuel (E + newtonStep m M e E) (newtonStep m M e E)
    else some E

/-- The function `solveKepler(M, e, tol)` of `App.js`: `let E = M; let deltaE = 1;`
followed by the loop and `return E`. -/
def solveKepler (m : MathEnv α) (fuel : Nat) (M e tol : α) : Option α :=
  keplerLoop m M e tol fuel M 1

/-- The orbital-plane coordinates `(x_orbital, y_orbital)` computed from the
eccentric anomaly, in `calculatePosition` and again in `createOrbitLine`. -/
def orbitalPlane (m : MathEnv α) (a e E : α) : α × α :=
  (a * (m.cos E - e), a * m.sqrt (1 - e * e) * m.sin E)

/-- The rotation into the ecliptic frame: the formulas for `x_ec`, `y_ec` and
`z_ec`, written out in `calculatePosition` and again in `createOrbitLine`. -/
def toEcliptic (m : MathEnv α) (I ω Ω x_orbital y_orbital : α) : Vec3 α :=
  { x := (m.cos Ω * m.cos ω - m.sin Ω * m.sin ω * m.cos I) * x_orbital +
      (-m.cos Ω * m.sin ω - m.sin Ω * m.cos ω * m.cos I) * y_orbital
    y := (m.sin Ω * m.cos ω + m.cos Ω * m.sin ω * m.cos I) * x_orbital +
      (-m.sin Ω * m.sin ω + m.cos Ω * m.cos ω * m.cos I) * y_orbital
    z := (m.sin ω * m.sin I) * x_orbital + (m.cos ω * m.sin I) * y_orbital }

/-- The mean anomaly in degrees computed by the first line of `calculatePosition`:
`((L - ω) + 360 * (T / 36525)) % 360`. -/
def meanAnomaly (m : MathEnv α) (L ω T : α) : α :=
  m.mod ((L - ω) + 360 * (T / 36525)) 360

/-- The function `calculatePosition(a, e, I, ω, Ω, L, T)` of `App.js`. -/
def calculatePosition (m : MathEnv α) (fuel : Nat) (a e I ω Ω L T : α) :
    Option (Vec3 α) :=
  let M := meanAnomaly m L ω T
  let M_rad := degToRad m M
  match solveKepler m fuel M_rad e defaultTol with
  | none => none
  | some E =>
    let x_orbital := (orbitalPlane m a e E).1
    let y_orbital := (orbitalPlane m a e E).2
    some (toEcliptic m I ω Ω x_orbital y_orbital)

/-- The mean anomaly in degrees of sample `i` of `createOrbitLine`:
`(L + i) % 360`. -/
def sampleAnomaly (m : MathEnv α) (L : α) (i : Nat) : α :=
  m.mod (L + (i : α)) 360

/-- Multiplication of the three coordinates by `distance`, as in
`new THREE.Vector3(x_ec * distance, y_ec * distance, z_ec * distance)`. -/
def scale (distance : α) (p : Vec3 α) : Vec3 α :=
  { x := p.x * distance, y := p.y * distance, z := p.z * distance }

/-- The body of the `for` loop of `createOrbitLine` for the counter value `i`:
the point that is pushed onto `points`. -/
def orbitPoint (m : MathEnv α) (fuel : Nat) (a e I ω Ω L distance : α) (i : Nat) :
    Option (Vec3 α) :=
  let M := sampleAnomaly m L i
  let M_rad := degToRad m M
  match solveKepler m fuel M_rad e defaultTol with
  | none => none
  | some E =>
    let x_orbital := (orbitalPlane m a e E).1
    let y_orbital := (orbitalPlane m a e E).2
    some (scale distance (toEcliptic m I ω Ω x_orbital y_orbital))

/-- The loop `for (let i = 0; i <= 360; i++)` of `createOrbitLine`, entered with
the counter `i` and the array `points` built so far. -/
def orbitLoop (m : MathEnv α) (fuel : Nat) (a e I ω Ω L distance : α) (i : Nat)
    (points : List (Vec3 α)) : Option (List (Vec3 α)) :=
  if i ≤ 360 then
    match orbitPoint m fuel a e I ω Ω L distance i with
    | none => none
    | some p => orbitLoop m fuel a e I ω Ω L distance (i + 1) (points ++ [p])
  else some points
termination_by 361 - i

/-- The array `points` built by `createOrbitLine(a, e, I, ω, Ω, L, distance, T)`,
from which the `THREE.Line` it returns is made.  The parameter `T` is not used by
the source. -/
def createOrbitLine (m : MathEnv α) (fuel : Nat) (a e I ω Ω L distance _T : α) :
    Option (List (Vec3 α)) :=
  orbitLoop m fuel a e I ω Ω L distance 0 []

/-- The state `(E, deltaE)` of `solveKepler` after `k` executions of its loop body,
were the loop condition not to stop it: `(M, 1)` at the start, then
`deltaE = (M - (E - e * Math.sin(E))) / (1 - e * Math.cos(E)); E = E + deltaE`. -/
def keplerState (m : MathEnv α) (M e : α) : Nat → α × α
  | 0 => (M, 1)
  | k + 1 =>
    ((keplerState m M e k).1 + newtonStep m M e (keplerState m M e k).1,
      newtonStep m M e (keplerState m M e k).1)

end Model

/-- The record `MathEnv` of exact real arithmetic: sine, cosine, square root, `π`,
the absolute value and the remainder `jsMod`. -/
noncomputable def realMath : MathEnv ℝ :=
  { sin := Real.sin, cos := Real.cos, sqrt := Real.sqrt, PI := Real.pi,
    abs := fun x => |x|, mod := jsMod }

/-! ## Double arithmetic -/

/-- Rounding of a real number to the nearest integer, a tie going to the even
neighbour. -/
noncomputable def roundHalfEven (y : ℝ) : ℤ :=
  if Int.fract y < 1 / 2 then ⌊y⌋
  else if 1 / 2 < Int.fract y then ⌊y⌋ + 1
  else if Even ⌊y⌋ then ⌊y⌋ else ⌊y⌋ + 1

/-- The exponent `e` of the binade of `x`: `2 ^ e ≤ |x| < 2 ^ (e + 1)` for
`x ≠ 0`. -/
noncomputable def binade (x : ℝ) : ℤ :=
  Int.log 2 |x|

/-- Rounding to the nearest number with a significand of 53 bits, ties to even:
the rounding of IEEE-754 binary64 (a JavaScript number) within the range of the
normal numbers. -/
noncomputable def round64 (x : ℝ) : ℝ :=
  (roundHalfEven (x / 2 ^ (binade x - 52)) : ℝ) * 2 ^ (binade x - 52)

/-- A JavaScript number in the range of the normal doubles: a real number that is
the result of the rounding `round64`. -/
structure Binary64 where
  /-- The real number that the double stands for. -/
  val : ℝ
  /-- The number is a double. -/
  isRounded : ∃ y, val = round64 y

namespace Binary64

/-- The double nearest to a real number. -/
noncomputable def ofReal (x : ℝ) : Binary64 :=
  ⟨round64 x, x, rfl⟩

noncomputable instance instZero : Zero Binary64 := ⟨ofReal 0⟩

noncomputable instance instOne : One Binary64 := ⟨ofReal 1⟩

noncomputable instance instAdd : Add Binary64 := ⟨fun a b => ofReal (a.val + b.val)⟩

noncomputable instance instSub : Sub Binary64 := ⟨fun a b => ofReal (a.val - b.val)⟩

noncomputable instance instMul : Mul Binary64 := ⟨fun a b => ofReal (a.val * b.val)⟩

noncomputable instance instDiv : Div Binary64 := ⟨fun a b => ofReal (a.val / b.val)⟩

noncomputable instance instNeg : Neg Binary64 := ⟨fun a => ofReal (-a.val)⟩

instance instLT : LT Binary64 := ⟨fun a b => a.val < b.val⟩

noncomputable instance instDecidableLT : DecidableRel (fun a b : Binary64 => a < b) :=
  fun a b => inferInstanceAs (Decidable (a.val < b.val))

noncomputable instance instNatCast : NatCast Binary64 := ⟨fun n => ofReal (n : ℝ)⟩

noncomputable instance instOfNat (n : ℕ) [n.AtLeastTwo] : OfNat Binary64 n :=
  ⟨ofReal (n : ℝ)⟩

end Binary64

/-- The record `MathEnv` of double arithmetic.  `Math.PI` is the double
`3.141592653589793`; `Math.sqrt` is correctly rounded, as IEEE-754 requires;
`Math.sin` and `Math.cos`, which ECMAScript leaves to the implementation, are
modelled by the correctly rounded sine and cosine; `Math.abs` and `%` are exact on
doubles, their results being doubles. -/
noncomputable def binary64Math : MathEnv Binary64 :=
  { sin := fun a => Binary64.ofReal (Real.sin a.val)
    cos := fun a => Binary64.ofReal (Real.cos a.val)
    sqrt := fun a => Binary64.ofReal (Real.sqrt a.val)
    PI := Binary64.ofReal (884279719003555 / 281474976710656)
    abs := fun a => Binary64.ofReal |a.val|
    mod := fun a b => Binary64.ofReal (jsMod a.val b.val) }

/-! ## Auxiliary facts -/

section RemainderFacts

variable {α : Type} [LinearOrderedField α] [FloorRing α]

theorem jsMod_of_nonneg (x : α) (hx : 0 ≤ x) :
    0 ≤ jsMod x 360 ∧ jsMod x 360 < 360 := by
  have h360 : (0 : α) < 360 := by norm_num
  have hq : 0 ≤ x / 360 := div_nonneg hx h360.le
  have h1 := Int.floor_le (x / 360)
  have h2 := Int.lt_floor_add_one (x / 360)
  have hx360 : x = 360 * (x / 360) := by field_simp
  simp only [jsMod, truncate, if_pos hq]
  constructor <;> linarith

theorem jsMod_of_neg (x : α) (hx : x < 0) :
    -360 < jsMod x 360 ∧ jsMod x 360 ≤ 0 := by
  have h360 : (0 : α) < 360 := by norm_num
  have hq : ¬ 0 ≤ x / 360 := not_le.mpr (div_neg_of_neg_of_pos hx h360)
  have h1 := Int.le_ceil (x / 360)
  have h2 := Int.ceil_lt_add_one (x / 360)
  have hx360 : x = 360 * (x / 360) := by field_simp
  simp only [jsMod, truncate, if_neg hq]
  constructor <;> linarith

theorem jsMod_of_abs_lt (x : α) (hx : |x| < 360) : jsMod x 360 = x := by
  have h360 : (0 : α) < 360 := by norm_num
  obtain ⟨hlo, hhi⟩ := abs_lt.mp hx
  have ht : truncate (x / 360) = 0 := by
    unfold truncate
    split_ifs with h
    · rw [Int.floor_eq_iff]
      refine ⟨by simpa using h, ?_⟩
      rw [div_lt_iff₀ h360]; simpa using hhi
    · rw [Int.ceil_eq_iff]
      push_neg at h
      refine ⟨?_, by simpa using h.le⟩
      rw [lt_div_iff₀ h360]; simpa using hlo
  simp [jsMod, ht]

theorem jsMod_abs_lt (x : α) : |jsMod x 360| < 360 := by
  rw [abs_lt]
  rcases le_or_lt 0 x with hx | hx
  · have := jsMod_of_nonneg x hx
    constructor <;> linarith
  · have := jsMod_of_neg x hx
    constructor <;> linarith

theorem jsMod_jsMod (x : α) : jsMod (jsMod x 360) 360 = jsMod x 360 :=
  jsMod_of_abs_lt _ (jsMod_abs_lt x)

end RemainderFacts

section Solver

variable {α : Type} [One α] [Add α] [Sub α] [Mul α] [Div α] [LT α]
  [DecidableRel (fun a b : α => a < b)]

theorem keplerLoop_exit (m : MathEnv α) (M e tol : α) (fuel : Nat) (E deltaE : α)
    (h : ¬ tol < m.abs deltaE) : keplerLoop m M e tol fuel E deltaE = some E := by
  cases fuel <;> simp [keplerLoop, h]

theorem keplerLoop_step (m : MathEnv α) (M e tol : α) (fuel : Nat) (E deltaE : α)
    (h : tol < m.abs deltaE) :
    keplerLoop m M e tol (fuel + 1) E deltaE =
      keplerLoop m M e tol fuel (E + newtonStep m M e E) (newtonStep m M e E) := by
  simp [keplerLoop, h]

theorem keplerLoop_zero_of_lt (m : MathEnv α) (M e tol : α) (E deltaE : α)
    (h : tol < m.abs deltaE) : keplerLoop m M e tol 0 E deltaE = none := by
  simp [keplerLoop, h]

/-- A run that has left the loop leaves it again with a larger budget. -/
theorem keplerLoop_mono (m : MathEnv α) (M e tol : α) (fuel : Nat) :
    ∀ (E deltaE r : α), keplerLoop m M e tol fuel E deltaE = some r →
      keplerLoop m M e tol (fuel + 1) E deltaE = some r := by
  induction fuel with
  | zero =>
    intro E deltaE r h
    by_cases hd : tol < m.abs deltaE
    · simp [keplerLoop, hd] at h
    · rw [keplerLoop_exit m M e tol 0 E deltaE hd] at h
      rw [keplerLoop_exit m M e tol 1 E deltaE hd]
      exact h
  | succ n ih =>
    intro E deltaE r h
    by_cases hd : tol < m.abs deltaE
    · rw [keplerLoop_step m M e tol n E deltaE hd] at h
      rw [keplerLoop_step m M e tol (n + 1) E deltaE hd]
      exact ih _ _ _ h
    · rw [keplerLoop_exit m M e tol (n + 1) E deltaE hd] at h
      rw [keplerLoop_exit m M e tol (n + 2) E deltaE hd]
      exact h

theorem keplerLoop_mono_le (m : MathEnv α) (M e tol : α) (fuel fuel' : Nat)
    (hle : fuel ≤ fuel') (E deltaE r : α)
    (h : keplerLoop m M e tol fuel E deltaE = some r) :
    keplerLoop m M e tol fuel' E deltaE = some r := by
  induction hle with
  | refl => exact h
  | step _ ih => exact keplerLoop_mono m M e tol _ E deltaE r ih

/-- What is known of the value a run returns: the loop was left either at once,
or after a Newton step `deltaE` with `|deltaE| ≤ tol` taken from some `E'`. -/
theorem keplerLoop_result (m : MathEnv α) (M e tol : α) (fuel : Nat) :
    ∀ (E deltaE r : α), keplerLoop m M e tol fuel E deltaE = some r →
      (¬ tol < m.abs deltaE ∧ r = E) ∨
        ∃ E', ¬ tol < m.abs (newtonStep m M e E') ∧ r = E' + newtonStep m M e E' := by
  induction fuel with
  | zero =>
    intro E deltaE r h
    by_cases hd : tol < m.abs deltaE
    · simp [keplerLoop, hd] at h
    · rw [keplerLoop_exit m M e tol 0 E deltaE hd] at h
      exact Or.inl ⟨hd, (Option.some.inj h).symm⟩
  | succ n ih =>
    intro E deltaE r h
    by_cases hd : tol < m.abs deltaE
    · rw [keplerLoop_step m M e tol n E deltaE hd] at h
      rcases ih _ _ _ h with ⟨h1, h2⟩ | h'
      · exact Or.inr ⟨E, h1, h2⟩
      · exact Or.inr h'
    · rw [keplerLoop_exit m M e tol (n + 1) E deltaE hd] at h
      exact Or.inl ⟨hd, (Option.some.inj h).symm⟩

/-- The loop entered in the state reached after `k` executions of the body
returns, with a budget of `n`, exactly when one of the states reached after
`k, ..., k + n` executions fails the loop condition, and then it returns the `E`
of the first such state. -/
theorem keplerLoop_iff (m : MathEnv α) (M e tol : α) (n : Nat) :
    ∀ (k : Nat) (r : α),
      keplerLoop m M e tol n (keplerState m M e k).1 (keplerState m M e k).2 = some r ↔
        ∃ j, j ≤ n ∧ ¬ tol < m.abs (keplerState m M e (k + j)).2 ∧
          (∀ i, i < j → tol < m.abs (keplerState m M e (k + i)).2) ∧
          r = (keplerState m M e (k + j)).1 := by
  induction n with
  | zero =>
    intro k r
    by_cases hd : tol < m.abs (keplerState m M e k).2
    · rw [keplerLoop_zero_of_lt m M e tol _ _ hd]
      constructor
      · intro h; cases h
      · rintro ⟨j, hj, hnot, _, _⟩
        obtain rfl : j = 0 := Nat.le_zero.mp hj
        exact absurd hd hnot
    · rw [keplerLoop_exit m M e tol 0 _ _ hd]
      constructor
      · intro h
        exact ⟨0, le_refl 0, hd, fun i hi => absurd hi (Nat.not_lt_zero i),
          (Option.some.inj h).symm⟩
      · rintro ⟨j, hj, _, _, hr⟩
        obtain rfl : j = 0 := Nat.le_zero.mp hj
        rw [hr]; rfl
  | succ n ih =>
    intro k r
    by_cases hd : tol < m.abs (keplerState m M e k).2
    · rw [keplerLoop_step m M e tol n _ _ hd]
      have hk := ih (k + 1) r
      simp only [keplerState] at hk
      rw [hk]
      constructor
      · rintro ⟨j, hj, hnot, hall, hr⟩
        refine ⟨j + 1, Nat.succ_le_succ hj, ?_, ?_, ?_⟩
        · rwa [show k + (j + 1) = k + 1 + j by omega]
        · intro i hi
          cases i with
          | zero => exact hd
          | succ i =>
            have := hall i (by omega)
            rwa [show k + (i + 1) = k + 1 + i by omega]
        · rwa [show k + (j + 1) = k + 1 + j by omega]
      · rintro ⟨j, hj, hnot, hall, hr⟩
        cases j with
        | zero => exact absurd hd hnot
        | succ j =>
          refine ⟨j, by omega, ?_, ?_, ?_⟩
          · rwa [show k + 1 + j = k + (j + 1) by omega]
          · intro i hi
            have := hall (i + 1) (by omega)
            rwa [show k + 1 + i = k + (i + 1) by omega]
          · rwa [show k + 1 + j = k + (j + 1) by omega]
    · rw [keplerLoop_exit m M e tol (n + 1) _ _ hd]
      constructor
      · intro h
        exact ⟨0, Nat.zero_le _, hd, fun i hi => absurd hi (Nat.not_lt_zero i),
          (Option.some.inj h).symm⟩
      · rintro ⟨j, _, _, hall, hr⟩
        cases j with
        | zero => rw [hr]; rfl
        | succ j => exact absurd (hall 0 (Nat.succ_pos j)) hd

end Solver

section Sampler

variable {α : Type} [Zero α] [One α] [Add α] [Sub α] [Mul α] [Div α] [Neg α] [LT α]
  [DecidableRel (fun a b : α => a < b)] [NatCast α]
  [OfNat α 180] [OfNat α 360] [OfNat α 36525] [OfNat α 1000000]

/-- The point of sample `i` is defined exactly when the solver leaves its loop on
the mean anomaly of that sample. -/
theorem orbitPoint_eq_some_of_solve (m : MathEnv α) (fuel : Nat)
    (a e I ω Ω L distance : α) (i : Nat) (E : α)
    (h : solveKepler m fuel (degToRad m (sampleAnomaly m L i)) e defaultTol = some E) :
    orbitPoint m fuel a e I ω Ω L distance i =
      some (scale distance (toEcliptic m I ω Ω (orbitalPlane m a e E).1
        (orbitalPlane m a e E).2)) := by
  simp only [orbitPoint, h]

/-- The function `calculatePosition` returns a position when the solver leaves its
loop on the mean anomaly it computes. -/
theorem calculatePosition_isSome (m : MathEnv α) (fuel : Nat) (a e I ω Ω L T : α)
    (h : ∃ E, solveKepler m fuel (degToRad m (meanAnomaly m L ω T)) e defaultTol = some E) :
    ∃ p, calculatePosition m fuel a e I ω Ω L T = some p := by
  obtain ⟨E, hE⟩ := h
  refine ⟨toEcliptic m I ω Ω (orbitalPlane m a e E).1 (orbitalPlane m a e E).2, ?_⟩
  simp only [calculatePosition, hE]

/-- What the loop of `createOrbitLine` returns when entered at the counter `i`:
the points built so far, followed by one point for each counter value from `i` to
`360`, in this order. -/
theorem orbitLoop_spec (m : MathEnv α) (fuel : Nat) (a e I ω Ω L distance : α)
    (k : Nat) : ∀ (i : Nat) (points pts : List (Vec3 α)), 361 - i = k →
      orbitLoop m fuel a e I ω Ω L distance i points = some pts →
      ∃ tail, pts = points ++ tail ∧ tail.length = k ∧
        ∀ j, j < k → tail[j]? = orbitPoint m fuel a e I ω Ω L distance (i + j) := by
  induction k with
  | zero =>
    intro i points pts hk h
    rw [orbitLoop, if_neg (by omega)] at h
    exact ⟨[], by simpa using (Option.some.inj h).symm, rfl, fun j hj => by omega⟩
  | succ k ih =>
    intro i points pts hk h
    rw [orbitLoop, if_pos (by omega)] at h
    cases hp : orbitPoint m fuel a e I ω Ω L distance i with
    | none => simp [hp] at h
    | some p =>
      simp only [hp] at h
      obtain ⟨tail, h1, h2, h3⟩ := ih (i + 1) (points ++ [p]) pts (by omega) h
      refine ⟨p :: tail, by simpa using h1, by simp [h2], fun j hj => ?_⟩
      cases j with
      | zero => simpa using hp.symm
      | succ j =>
        have := h3 j (by omega)
        simpa [Nat.add_assoc, Nat.add_comm 1 j] using this

/-- The loop of `createOrbitLine` returns when every remaining sample has a point. -/
theorem orbitLoop_isSome (m : MathEnv α) (fuel : Nat) (a e I ω Ω L distance : α)
    (h : ∀ j, j ≤ 360 → ∃ p, orbitPoint m fuel a e I ω Ω L distance j = some p)
    (k : Nat) : ∀ (i : Nat) (points : List (Vec3 α)), 361 - i = k →
      ∃ pts, orbitLoop m fuel a e I ω Ω L distance i points = some pts := by
  induction k with
  | zero =>
    intro i points hk
    rw [orbitLoop, if_neg (by omega)]
    exact ⟨points, rfl⟩
  | succ k ih =>
    intro i points hk
    obtain ⟨p, hp⟩ := h i (by omega)
    rw [orbitLoop, if_pos (by omega)]
    simp only [hp]
    exact ih (i + 1) (points ++ [p]) (by omega)

/-- The points of `createOrbitLine`, when it returns: `361` of them, the one at
index `i` being the point of sample `i`. -/
theorem createOrbitLine_spec (m : MathEnv α) (fuel : Nat)
    (a e I ω Ω L distance T : α) (pts : List (Vec3 α))
    (h : createOrbitLine m fuel a e I ω Ω L distance T = some pts) :
    pts.length = 361 ∧
      ∀ i, i ≤ 360 → pts[i]? = orbitPoint m fuel a e I ω Ω L distance i := by
  obtain ⟨tail, h1, h2, h3⟩ :=
    orbitLoop_spec m fuel a e I ω Ω L distance 361 0 [] pts rfl h
  rw [List.nil_append] at h1
  subst h1
  exact ⟨h2, fun i hi => by simpa using h3 i (by omega)⟩

/-- The function `createOrbitLine` returns its points when the solver leaves its
loop on every sample. -/
theorem createOrbitLine_isSome (m : MathEnv α) (fuel : Nat)
    (a e I ω Ω L distance T : α)
    (h : ∀ i, i ≤ 360 →
      ∃ E, solveKepler m fuel (degToRad m (sampleAnomaly m L i)) e defaultTol = some E) :
    ∃ pts, createOrbitLine m fuel a e I ω Ω L distance T = some pts := by
  refine orbitLoop_isSome m fuel a e I ω Ω L distance (fun j hj => ?_) 361 0 [] rfl
  obtain ⟨E, hE⟩ := h j hj
  exact ⟨_, orbitPoint_eq_some_of_solve m fuel a e I ω Ω L distance j E hE⟩

/-- The point of a sample depends on the sample only through its mean anomaly. -/
theorem orbitPoint_congr (m : MathEnv α) (fuel : Nat) (a e I ω Ω L distance : α)
    (i j : Nat) (hM : sampleAnomaly m L i = sampleAnomaly m L j) :
    orbitPoint m fuel a e I ω Ω L distance i = orbitPoint m fuel a e I ω Ω L distance j := by
  simp only [orbitPoint, hM]

/-- When the loop body builds the same point for `i = 360` as for `i = 0` and the
solver leaves its loop on every sample, `createOrbitLine` returns `361` points of
which the first and the last are the same. -/
theorem createOrbitLine_closed_of_eq (m : MathEnv α) (fuel : Nat)
    (a e I ω Ω L distance T : α)
    (hpt : orbitPoint m fuel a e I ω Ω L distance 360 =
      orbitPoint m fuel a e I ω Ω L distance 0)
    (h : ∀ i, i ≤ 360 →
      ∃ E, solveKepler m fuel (degToRad m (sampleAnomaly m L i)) e defaultTol = some E) :
    ∃ pts p, createOrbitLine m fuel a e I ω Ω L distance T = some pts ∧
      pts.length = 361 ∧ pts.head? = some p ∧ pts.getLast? = some p := by
  obtain ⟨pts, hpts⟩ := createOrbitLine_isSome m fuel a e I ω Ω L distance T h
  obtain ⟨hlen, hs⟩ := createOrbitLine_spec m fuel a e I ω Ω L distance T pts hpts
  obtain ⟨E, hE⟩ := h 0 (Nat.zero_le _)
  have h0 := orbitPoint_eq_some_of_solve m fuel a e I ω Ω L distance 0 E hE
  refine ⟨pts, scale distance (toEcliptic m I ω Ω (orbitalPlane m a e E).1
    (orbitalPlane m a e E).2), hpts, hlen, ?_, ?_⟩
  · rw [List.head?_eq_getElem?, hs 0 (Nat.zero_le _)]
    exact h0
  · rw [List.getLast?_eq_getElem?, hlen, hs 360 (le_refl _), hpt]
    exact h0

/-- The body of the loop of `createOrbitLine` is `calculatePosition`, scaled by
`distance`, at every mean longitude `L'` and time `T` for which `calculatePosition`
computes the mean anomaly of the sample. -/
theorem orbitPoint_eq_of_meanAnomaly (m : MathEnv α) (fuel : Nat)
    (a e I ω Ω L distance L' T : α) (i : Nat)
    (hM : meanAnomaly m L' ω T = sampleAnomaly m L i) :
    orbitPoint m fuel a e I ω Ω L distance i =
      (calculatePosition m fuel a e I ω Ω L' T).map (scale distance) := by
  simp only [orbitPoint, calculatePosition, hM]
  cases solveKepler m fuel (degToRad m (sampleAnomaly m L i)) e defaultTol <;> rfl

end Sampler

section RealEnv

@[simp]
theorem realMath_sin : realMath.sin = Real.sin := rfl

@[simp]
theorem realMath_cos : realMath.cos = Real.cos := rfl

@[simp]
theorem realMath_sqrt : realMath.sqrt = Real.sqrt := rfl

@[simp]
theorem realMath_PI : realMath.PI = Real.pi := rfl

@[simp]
theorem realMath_abs (x : ℝ) : realMath.abs x = |x| := rfl

@[simp]
theorem realMath_mod (x y : ℝ) : realMath.mod x y = jsMod x y := rfl

theorem defaultTol_pos : (0 : ℝ) < defaultTol := by
  unfold defaultTol; norm_num

theorem solveKepler_result (M e tol : ℝ) (fuel : Nat) (r : ℝ)
    (h : solveKepler realMath fuel M e tol = some r) :
    (1 ≤ tol ∧ r = M) ∨
      ∃ E', |newtonStep realMath M e E'| ≤ tol ∧ r = E' + newtonStep realMath M e E' := by
  rcases keplerLoop_result realMath M e tol fuel M 1 r h with ⟨h1, h2⟩ | ⟨E', h1, h2⟩
  · exact Or.inl ⟨by simpa using h1, h2⟩
  · exact Or.inr ⟨E', not_lt.mp h1, h2⟩

/-- When the first Newton step is `0`, the solver returns its seed `M` as soon as
it may run the loop body once. -/
theorem solveKepler_of_step_zero (M e tol : ℝ) (fuel : Nat)
    (htol : 0 ≤ tol) (h0 : newtonStep realMath M e M = 0) :
    solveKepler realMath (fuel + 1) M e tol = some M := by
  unfold solveKepler
  by_cases hd : tol < realMath.abs (1 : ℝ)
  · rw [keplerLoop_step realMath M e tol fuel M 1 hd, h0, add_zero]
    exact keplerLoop_exit realMath M e tol fuel M 0 (by simpa using htol)
  · exact keplerLoop_exit realMath M e tol (fuel + 1) M 1 hd

/-- The body of the loop of `createOrbitLine` is `calculatePosition` at the mean
longitude `((L + i) % 360) + ω` and the time `0`, scaled by `distance`. -/
theorem orbitPoint_eq_calculatePosition (fuel : Nat)
    (a e I ω Ω L distance : ℝ) (i : Nat) :
    orbitPoint realMath fuel a e I ω Ω L distance i =
      (calculatePosition realMath fuel a e I ω Ω (sampleAnomaly realMath L i + ω) 0).map
        (scale distance) := by
  refine orbitPoint_eq_of_meanAnomaly realMath fuel a e I ω Ω L distance _ 0 i ?_
  simp only [meanAnomaly, sampleAnomaly, realMath_mod]
  rw [show jsMod (L + (i : ℝ)) 360 + ω - ω + 360 * (0 / 36525) =
    jsMod (L + (i : ℝ)) 360 by ring]
  exact jsMod_jsMod _

/-- The rotation of `toEcliptic` preserves the squared length. -/
theorem toEcliptic_norm_sq (I ω Ω x y : ℝ) :
    (toEcliptic realMath I ω Ω x y).x ^ 2 + (toEcliptic realMath I ω Ω x y).y ^ 2 +
      (toEcliptic realMath I ω Ω x y).z ^ 2 = x ^ 2 + y ^ 2 := by
  simp only [toEcliptic, realMath_sin, realMath_cos]
  have hI := Real.sin_sq_add_cos_sq I
  have hw := Real.sin_sq_add_cos_sq ω
  have hO := Real.sin_sq_add_cos_sq Ω
  have hI' : Real.sin I ^ 2 = 1 - Real.cos I ^ 2 := by linarith
  have hw' : Real.sin ω ^ 2 = 1 - Real.cos ω ^ 2 := by linarith
  have hO' : Real.sin Ω ^ 2 = 1 - Real.cos Ω ^ 2 := by linarith
  ring_nf
  simp only [hI', hw', hO']
  ring

/-- The squared length of the orbital-plane vector at eccentric anomaly `E`. -/
theorem orbitalPlane_norm_sq (a e E : ℝ) (he : e * e ≤ 1) :
    (orbitalPlane realMath a e E).1 ^ 2 + (orbitalPlane realMath a e E).2 ^ 2 =
      (a * (1 - e * Real.cos E)) ^ 2 := by
  simp only [orbitalPlane, realMath_sin, realMath_cos, realMath_sqrt]
  have hs : Real.sqrt (1 - e * e) ^ 2 = 1 - e * e := Real.sq_sqrt (by linarith)
  have hE : Real.sin E ^ 2 = 1 - Real.cos E ^ 2 := by
    have := Real.sin_sq_add_cos_sq E; linarith
  calc (a * (Real.cos E - e)) ^ 2 + (a * Real.sqrt (1 - e * e) * Real.sin E) ^ 2
      = a ^ 2 * (Real.cos E - e) ^ 2 +
          a ^ 2 * Real.sqrt (1 - e * e) ^ 2 * Real.sin E ^ 2 := by ring
    _ = (a * (1 - e * Real.cos E)) ^ 2 := by rw [hs, hE]; ring

end RealEnv

section Periodicity

/-- The Newton step does not change when the mean anomaly and the iterate are both
moved by a whole number of turns. -/
theorem newtonStep_shift (M e E : ℝ) (k : ℤ) :
    newtonStep realMath (M + k * (2 * Real.pi)) e (E + k * (2 * Real.pi)) =
      newtonStep realMath M e E := by
  simp only [newtonStep, realMath_sin, realMath_cos, Real.sin_add_int_mul_two_pi,
    Real.cos_add_int_mul_two_pi]
  congr 1
  ring

/-- The loop of `solveKepler` commutes with moving the mean anomaly and the iterate
by a whole number of turns. -/
theorem keplerLoop_shift (M e tol : ℝ) (k : ℤ) (fuel : Nat) :
    ∀ (E deltaE : ℝ),
      keplerLoop realMath (M + k * (2 * Real.pi)) e tol fuel (E + k * (2 * Real.pi))
          deltaE =
        (keplerLoop realMath M e tol fuel E deltaE).map
          (fun r => r + k * (2 * Real.pi)) := by
  induction fuel with
  | zero =>
    intro E deltaE
    by_cases hd : tol < |deltaE| <;> simp [keplerLoop, hd]
  | succ n ih =>
    intro E deltaE
    by_cases hd : tol < |deltaE|
    · rw [keplerLoop_step _ _ _ _ _ _ _ hd, keplerLoop_step _ _ _ _ _ _ _ hd,
        newtonStep_shift, ← ih]
      congr 1
      ring
    · simp [keplerLoop, hd]

theorem solveKepler_shift (M e tol : ℝ) (k : ℤ) (fuel : Nat) :
    solveKepler realMath fuel (M + k * (2 * Real.pi)) e tol =
      (solveKepler realMath fuel M e tol).map (fun r => r + k * (2 * Real.pi)) :=
  keplerLoop_shift M e tol k fuel M 1

/-- The orbital-plane coordinates are the same one whole number of turns further. -/
theorem orbitalPlane_shift (a e E : ℝ) (k : ℤ) :
    orbitalPlane realMath a e (E + k * (2 * Real.pi)) = orbitalPlane realMath a e E := by
  simp only [orbitalPlane, realMath_sin, realMath_cos, Real.sin_add_int_mul_two_pi,
    Real.cos_add_int_mul_two_pi]

/-- The mean anomalies of the samples `0` and `360`, in radians, differ by a whole
number of turns. -/
theorem sampleAnomaly_last (L : ℝ) :
    ∃ k : ℤ, degToRad realMath (sampleAnomaly realMath L 360) =
      degToRad realMath (sampleAnomaly realMath L 0) + k * (2 * Real.pi) := by
  refine ⟨1 - truncate ((L + ((360 : ℕ) : ℝ)) / 360) +
    truncate ((L + ((0 : ℕ) : ℝ)) / 360), ?_⟩
  simp only [degToRad, sampleAnomaly, realMath_mod, jsMod, realMath_PI]
  push_cast
  ring

/-- The loop body of `createOrbitLine` builds the same point for `i = 0` and for
`i = 360`. -/
theorem orbitPoint_last (fuel : Nat) (a e I ω Ω L distance : ℝ) :
    orbitPoint realMath fuel a e I ω Ω L distance 360 =
      orbitPoint realMath fuel a e I ω Ω L distance 0 := by
  obtain ⟨k, hk⟩ := sampleAnomaly_last L
  simp only [orbitPoint, hk, solveKepler_shift]
  cases solveKepler realMath fuel (degToRad realMath (sampleAnomaly realMath L 0)) e
      defaultTol with
  | none => rfl
  | some E => simp only [Option.map_some', orbitalPlane_shift]

end Periodicity

section Residual

/-- The residual of Kepler's equation, `M − (E − e·sin E)`. -/
theorem residual_after_step (M e E : ℝ) (hD : 1 - e * Real.cos E ≠ 0) :
    M - ((E + newtonStep realMath M e E) -
        e * Real.sin (E + newtonStep realMath M e E)) =
      e * (Real.sin E * (Real.cos (newtonStep realMath M e E) - 1) +
        Real.cos E * (Real.sin (newtonStep realMath M e E) -
          newtonStep realMath M e E)) := by
  have hd : newtonStep realMath M e E * (1 - e * Real.cos E) =
      M - (E - e * Real.sin E) := by
    simp only [newtonStep, realMath_sin, realMath_cos]
    exact div_mul_cancel₀ _ hD
  rw [Real.sin_add]
  linear_combination -hd

theorem abs_cos_sub_one_le (d : ℝ) : |Real.cos d - 1| ≤ d ^ 2 / 2 := by
  have h1 := Real.one_sub_sq_div_two_le_cos (x := d)
  have h2 := Real.cos_le_one d
  rw [abs_le]
  constructor <;> linarith

theorem abs_sin_sub_self_le (d : ℝ) (hd : |d| ≤ 1) : |Real.sin d - d| ≤ |d| ^ 3 / 4 := by
  rcases lt_trichotomy d 0 with h | h | h
  · have h1 := Real.sin_gt_sub_cube (x := -d) (by linarith) (by
      have := neg_abs_le d
      have := abs_of_neg h
      linarith)
    have h2 := Real.sin_lt (x := -d) (by linarith)
    rw [Real.sin_neg] at h1 h2
    rw [abs_of_neg h, abs_le]
    constructor <;> nlinarith
  · subst h; simp
  · have h1 := Real.sin_gt_sub_cube h (by
      have := abs_of_pos h
      linarith)
    have h2 := Real.sin_lt h
    rw [abs_of_pos h, abs_le]
    constructor <;> linarith

/-- The second-order remainder of the sine: the quantity that a Newton step leaves
as residual, up to the factor `e`. -/
theorem abs_sin_remainder_le (x d : ℝ) (hd : |d| ≤ 1) :
    |Real.sin x * (Real.cos d - 1) + Real.cos x * (Real.sin d - d)| ≤
      d ^ 2 / 2 + |d| ^ 3 / 4 := by
  have h1 : |Real.sin x * (Real.cos d - 1)| ≤ d ^ 2 / 2 := by
    rw [abs_mul]
    calc |Real.sin x| * |Real.cos d - 1| ≤ 1 * (d ^ 2 / 2) :=
          mul_le_mul (Real.abs_sin_le_one x) (abs_cos_sub_one_le d) (abs_nonneg _)
            zero_le_one
      _ = d ^ 2 / 2 := one_mul _
  have h2 : |Real.cos x * (Real.sin d - d)| ≤ |d| ^ 3 / 4 := by
    rw [abs_mul]
    calc |Real.cos x| * |Real.sin d - d| ≤ 1 * (|d| ^ 3 / 4) :=
          mul_le_mul (Real.abs_cos_le_one x) (abs_sin_sub_self_le d hd) (abs_nonneg _)
            zero_le_one
      _ = |d| ^ 3 / 4 := one_mul _
  exact (abs_add _ _).trans (add_le_add h1 h2)

/-- After a Newton step `ΔE` with `|ΔE| ≤ 1`, taken where the divisor is not `0`,
the residual of Kepler's equation is at most `|e|·(ΔE²/2 + |ΔE|³/4)`. -/
theorem abs_residual_after_step_le (M e E : ℝ) (hD : 1 - e * Real.cos E ≠ 0)
    (hd : |newtonStep realMath M e E| ≤ 1) :
    |M - ((E + newtonStep realMath M e E) -
        e * Real.sin (E + newtonStep realMath M e E))| ≤
      |e| * (newtonStep realMath M e E ^ 2 / 2 + |newtonStep realMath M e E| ^ 3 / 4) := by
  rw [residual_after_step M e E hD, abs_mul]
  exact mul_le_mul_of_nonneg_left (abs_sin_remainder_le E _ hd) (abs_nonneg e)

/-- The divisor of the Newton step is at least `1 − e` for `e ≥ 0`. -/
theorem one_sub_le_divisor (e E : ℝ) (he0 : 0 ≤ e) : 1 - e ≤ 1 - e * Real.cos E := by
  have := Real.cos_le_one E
  nlinarith

end Residual

section Termination

/-- For `0 ≤ e ≤ 1/2` the first Newton step, taken at the seed `E = M`, has
absolute value at most `1`. -/
theorem abs_first_step_le (M e : ℝ) (he0 : 0 ≤ e) (he1 : e ≤ 1 / 2) :
    |newtonStep realMath M e M| ≤ 1 := by
  have hD := one_sub_le_divisor e M he0
  have hDpos : 0 < 1 - e * Real.cos M := by linarith
  simp only [newtonStep, realMath_sin, realMath_cos]
  rw [abs_div, abs_of_pos hDpos, div_le_one hDpos]
  have hnum : M - (M - e * Real.sin M) = e * Real.sin M := by ring
  rw [hnum, abs_mul, abs_of_nonneg he0]
  have hs := Real.abs_sin_le_one M
  have : e * |Real.sin M| ≤ e * 1 := mul_le_mul_of_nonneg_left hs he0
  linarith

/-- For `0 ≤ e ≤ 1/2`, a Newton step of absolute value at most `t ≤ 1` is followed
by a Newton step of absolute value at most `3/4·t²`. -/
theorem abs_next_step_le (M e E t : ℝ) (he0 : 0 ≤ e) (he1 : e ≤ 1 / 2)
    (ht : |newtonStep realMath M e E| ≤ t) (ht1 : t ≤ 1) :
    |newtonStep realMath M e (E + newtonStep realMath M e E)| ≤ 3 / 4 * t ^ 2 := by
  have hD0 : 1 - e * Real.cos E ≠ 0 := by
    have := one_sub_le_divisor e E he0
    intro h0
    linarith
  have hres := abs_residual_after_step_le M e E hD0 (ht.trans ht1)
  rw [abs_of_nonneg he0] at hres
  have hD := one_sub_le_divisor e (E + newtonStep realMath M e E) he0
  have hDpos : 0 < 1 - e * Real.cos (E + newtonStep realMath M e E) := by linarith
  have hd0 := abs_nonneg (newtonStep realMath M e E)
  have hsq : newtonStep realMath M e E ^ 2 = |newtonStep realMath M e E| ^ 2 :=
    (sq_abs _).symm
  rw [hsq] at hres
  have hstep : newtonStep realMath M e (E + newtonStep realMath M e E) =
      (M - ((E + newtonStep realMath M e E) -
        e * Real.sin (E + newtonStep realMath M e E))) /
        (1 - e * Real.cos (E + newtonStep realMath M e E)) := rfl
  rw [hstep, abs_div, abs_of_pos hDpos, div_le_iff₀ hDpos]
  refine hres.trans ?_
  generalize |newtonStep realMath M e E| = s at ht hd0
  generalize 1 - e * Real.cos (E + newtonStep realMath M e E) = D at hD hDpos
  have ht0 : 0 ≤ t := hd0.trans ht
  have hs2 : s ^ 2 ≤ t ^ 2 := by nlinarith
  have hs3 : s ^ 3 ≤ t ^ 2 := by
    have h1 : s ^ 3 ≤ s ^ 2 := by nlinarith [sq_nonneg s]
    linarith
  have hB : s ^ 2 / 2 + s ^ 3 / 4 ≤ 3 / 4 * t ^ 2 := by linarith
  have hB0 : 0 ≤ 3 / 4 * t ^ 2 := by positivity
  calc e * (s ^ 2 / 2 + s ^ 3 / 4) ≤ e * (3 / 4 * t ^ 2) :=
        mul_le_mul_of_nonneg_left hB he0
    _ ≤ D * (3 / 4 * t ^ 2) := mul_le_mul_of_nonneg_right (by linarith) hB0
    _ = 3 / 4 * t ^ 2 * D := mul_comm _ _

/-- For `0 ≤ e ≤ 1/2` the loop of `solveKepler`, entered after a Newton step of
absolute value at most `t ≤ 1`, returns within `n` further executions of its body
when `n` applications of `t ↦ 3/4·t²` bring `t` below the tolerance. -/
theorem keplerLoop_returns (M e tol : ℝ) (he0 : 0 ≤ e) (he1 : e ≤ 1 / 2) (n : Nat) :
    ∀ (E t : ℝ), |newtonStep realMath M e E| ≤ t → t ≤ 1 →
      (fun s : ℝ => 3 / 4 * s ^ 2)^[n] t ≤ tol →
      ∃ r, keplerLoop realMath M e tol n (E + newtonStep realMath M e E)
        (newtonStep realMath M e E) = some r := by
  induction n with
  | zero =>
    intro E t ht _ htol
    exact ⟨_, keplerLoop_exit realMath M e tol 0 _ _
      (not_lt.mpr (ht.trans (by simpa using htol)))⟩
  | succ n ih =>
    intro E t ht ht1 htol
    by_cases hd : tol < realMath.abs (newtonStep realMath M e E)
    · rw [keplerLoop_step realMath M e tol n _ _ hd]
      have ht0 : 0 ≤ t := (abs_nonneg _).trans ht
      refine ih (E + newtonStep realMath M e E) (3 / 4 * t ^ 2)
        (abs_next_step_le M e E t he0 he1 ht ht1) (by nlinarith) ?_
      simpa [Function.iterate_succ_apply] using htol
    · exact ⟨_, keplerLoop_exit realMath M e tol (n + 1) _ _ hd⟩

/-- For `0 ≤ e ≤ 1/2` and every mean anomaly, `solveKepler` with the default
tolerance leaves its loop after at most seven executions of the loop body. -/
theorem solveKepler_returns (M e : ℝ) (he0 : 0 ≤ e) (he1 : e ≤ 1 / 2) (fuel : Nat)
    (hfuel : 7 ≤ fuel) : ∃ E, solveKepler realMath fuel M e defaultTol = some E := by
  have h7 : ∃ E, solveKepler realMath 7 M e defaultTol = some E := by
    unfold solveKepler
    rw [keplerLoop_step realMath M e defaultTol 6 M 1
      (by rw [realMath_abs, abs_one]; unfold defaultTol; norm_num)]
    refine keplerLoop_returns M e defaultTol he0 he1 6 M 1
      (abs_first_step_le M e he0 he1) (le_refl 1) ?_
    simp only [Function.iterate_succ_apply, Function.iterate_zero_apply, defaultTol]
    norm_num
  obtain ⟨E, hE⟩ := h7
  exact ⟨E, keplerLoop_mono_le realMath M e defaultTol 7 fuel hfuel M 1 E hE⟩

end Termination

section Rounding

theorem roundHalfEven_intCast (n : ℤ) : roundHalfEven (n : ℝ) = n := by
  simp [roundHalfEven]

theorem floor_le_roundHalfEven (y : ℝ) : ⌊y⌋ ≤ roundHalfEven y := by
  unfold roundHalfEven
  split_ifs <;> omega

theorem roundHalfEven_le_floor_add_one (y : ℝ) : roundHalfEven y ≤ ⌊y⌋ + 1 := by
  unfold roundHalfEven
  split_ifs <;> omega

theorem abs_roundHalfEven_sub_le (y : ℝ) : |(roundHalfEven y : ℝ) - y| ≤ 1 / 2 := by
  have hf : Int.fract y = y - ⌊y⌋ := rfl
  have h0 := Int.fract_nonneg y
  have h1 := Int.fract_lt_one y
  unfold roundHalfEven
  rw [abs_le]
  split_ifs with ha hb hc
  · constructor <;> linarith
  · push_cast; constructor <;> linarith
  · have : Int.fract y = 1 / 2 := le_antisymm (not_lt.mp hb) (not_lt.mp ha)
    constructor <;> linarith
  · have : Int.fract y = 1 / 2 := le_antisymm (not_lt.mp hb) (not_lt.mp ha)
    push_cast; constructor <;> linarith

theorem roundHalfEven_of_lt_half (n : ℤ) (y : ℝ) (h1 : (n : ℝ) ≤ y)
    (h2 : y < n + 1 / 2) : roundHalfEven y = n := by
  have hfl : ⌊y⌋ = n := by
    rw [Int.floor_eq_iff]
    constructor <;> linarith
  have hf : Int.fract y = y - n := by rw [← hfl]; rfl
  unfold roundHalfEven
  rw [if_pos (by rw [hf]; linarith), hfl]

theorem roundHalfEven_half_of_even (n : ℤ) (hn : Even n) :
    roundHalfEven ((n : ℝ) + 1 / 2) = n := by
  have hfl : ⌊(n : ℝ) + 1 / 2⌋ = n := by
    rw [Int.floor_eq_iff]
    constructor <;> linarith
  have hf : Int.fract ((n : ℝ) + 1 / 2) = 1 / 2 := by
    have : Int.fract ((n : ℝ) + 1 / 2) = (n : ℝ) + 1 / 2 - ⌊(n : ℝ) + 1 / 2⌋ := rfl
    rw [this, hfl]; ring
  unfold roundHalfEven
  rw [if_neg (by rw [hf]; exact lt_irrefl _), if_neg (by rw [hf]; exact lt_irrefl _),
    hfl, if_pos hn]

theorem binade_spec (x : ℝ) (hx : x ≠ 0) :
    (2 : ℝ) ^ binade x ≤ |x| ∧ |x| < (2 : ℝ) ^ (binade x + 1) := by
  have h1 := Int.zpow_log_le_self (b := 2) (r := |x|) (by norm_num) (abs_pos.mpr hx)
  have h2 := Int.lt_zpow_succ_log_self (b := 2) (by norm_num) |x|
  exact ⟨by simpa [binade] using h1, by simpa [binade] using h2⟩

theorem binade_eq (x : ℝ) (e : ℤ) (h1 : (2 : ℝ) ^ e ≤ |x|) (h2 : |x| < (2 : ℝ) ^ (e + 1)) :
    binade x = e := by
  have hpos : 0 < |x| := lt_of_lt_of_le (by positivity) h1
  have ha : e ≤ Int.log 2 |x| :=
    (Int.zpow_le_iff_le_log (b := 2) (by norm_num) hpos).mp (by simpa using h1)
  have hb : Int.log 2 |x| < e + 1 :=
    (Int.lt_zpow_iff_log_lt (b := 2) (by norm_num) hpos).mp (by simpa using h2)
  unfold binade
  omega

theorem round64_zero : round64 0 = 0 := by
  simp [round64, roundHalfEven]

/-- A number `n * 2 ^ k` with an integer `|n| < 2 ^ 53` is a double: rounding
leaves it as it is. -/
theorem round64_int_mul_zpow (n k : ℤ) (hn : |(n : ℝ)| < 2 ^ 53) :
    round64 ((n : ℝ) * 2 ^ k) = (n : ℝ) * 2 ^ k := by
  by_cases h0 : n = 0
  · subst h0; simp [round64_zero]
  · have hx : (n : ℝ) * 2 ^ k ≠ 0 :=
      mul_ne_zero (Int.cast_ne_zero.mpr h0) (zpow_ne_zero _ (by norm_num))
    obtain ⟨h1, _⟩ := binade_spec _ hx
    set e := binade ((n : ℝ) * 2 ^ k) with he
    have hk : (0 : ℝ) < 2 ^ k := by positivity
    have hlt : (2 : ℝ) ^ e < 2 ^ (53 + k) := by
      rw [abs_mul, abs_of_pos hk] at h1
      calc (2 : ℝ) ^ e ≤ |(n : ℝ)| * 2 ^ k := h1
        _ < 2 ^ 53 * 2 ^ k := mul_lt_mul_of_pos_right hn hk
        _ = 2 ^ (53 + k) := by
          rw [zpow_add₀ (by norm_num : (2 : ℝ) ≠ 0)]; norm_num
    have hek : e < 53 + k := (zpow_lt_zpow_iff_right₀ (by norm_num : (1 : ℝ) < 2)).mp hlt
    obtain ⟨d, hd⟩ : ∃ d : ℕ, k - (e - 52) = d := ⟨(k - (e - 52)).toNat, by omega⟩
    have hq : (n : ℝ) * 2 ^ k / 2 ^ (e - 52) = ((n * 2 ^ d : ℤ) : ℝ) := by
      rw [mul_div_assoc, ← zpow_sub₀ (by norm_num : (2 : ℝ) ≠ 0), hd]
      push_cast
      rfl
    unfold round64
    rw [← he, hq, roundHalfEven_intCast, ← hq]
    field_simp

theorem abs_roundHalfEven_le (y : ℝ) (N : ℤ) (hy : |y| < N) :
    |(roundHalfEven y : ℝ)| ≤ N := by
  obtain ⟨h1, h2⟩ := abs_lt.mp hy
  have hf1 : -N ≤ ⌊y⌋ := Int.le_floor.mpr (by push_cast; linarith)
  have hf2 : ⌊y⌋ < N := Int.floor_lt.mpr h2
  have ha := floor_le_roundHalfEven y
  have hb := roundHalfEven_le_floor_add_one y
  rw [abs_le]
  constructor
  · exact_mod_cast (show -N ≤ roundHalfEven y by omega)
  · exact_mod_cast (show roundHalfEven y ≤ N by omega)

/-- The result of the rounding is a double: rounding it again changes nothing. -/
theorem round64_round64 (x : ℝ) : round64 (round64 x) = round64 x := by
  by_cases hx : x = 0
  · subst hx; simp [round64_zero]
  · obtain ⟨h1, h2⟩ := binade_spec x hx
    set e := binade x with he
    have hu : (0 : ℝ) < 2 ^ (e - 52) := by positivity
    have hq : |x / 2 ^ (e - 52)| < ((2 ^ 53 : ℤ) : ℝ) := by
      rw [abs_div, abs_of_pos hu, div_lt_iff₀ hu]
      calc |x| < 2 ^ (e + 1) := h2
        _ = ((2 ^ 53 : ℤ) : ℝ) * 2 ^ (e - 52) := by
          push_cast
          rw [show e + 1 = 53 + (e - 52) by ring, zpow_add₀ (by norm_num : (2 : ℝ) ≠ 0)]
          norm_num
    have hr := abs_roundHalfEven_le _ _ hq
    have hdef : round64 x = (roundHalfEven (x / 2 ^ (e - 52)) : ℝ) * 2 ^ (e - 52) := by
      unfold round64; rw [← he]
    rw [hdef]
    rcases lt_or_eq_of_le hr with hlt | heq
    · exact round64_int_mul_zpow _ _ (by push_cast at hlt; norm_num; exact hlt)
    · push_cast at heq
      have heq : |(roundHalfEven (x / 2 ^ (e - 52)) : ℝ)| = 2 ^ 53 := by
        rw [heq]; norm_num
      rcases abs_eq (by positivity : (0 : ℝ) ≤ 2 ^ 53) |>.mp heq with hp | hm
      · rw [hp]
        have : (2 : ℝ) ^ 53 * 2 ^ (e - 52) = ((1 : ℤ) : ℝ) * 2 ^ (e + 1) := by
          rw [show e + 1 = 53 + (e - 52) by ring, zpow_add₀ (by norm_num : (2 : ℝ) ≠ 0)]
          norm_num
        rw [this]
        exact round64_int_mul_zpow 1 (e + 1) (by norm_num)
      · rw [hm]
        have : -(2 : ℝ) ^ 53 * 2 ^ (e - 52) = ((-1 : ℤ) : ℝ) * 2 ^ (e + 1) := by
          rw [show e + 1 = 53 + (e - 52) by ring, zpow_add₀ (by norm_num : (2 : ℝ) ≠ 0)]
          norm_num
        rw [this]
        exact round64_int_mul_zpow (-1) (e + 1) (by norm_num)

/-- The rounding error is at most `|x| / 2 ^ 53`. -/
theorem abs_round64_sub_le (x : ℝ) : |round64 x - x| ≤ |x| / 2 ^ 53 := by
  by_cases hx : x = 0
  · subst hx; simp [round64_zero]
  · obtain ⟨h1, _⟩ := binade_spec x hx
    set e := binade x with he
    have hu : (0 : ℝ) < 2 ^ (e - 52) := by positivity
    have hdef : round64 x = (roundHalfEven (x / 2 ^ (e - 52)) : ℝ) * 2 ^ (e - 52) := by
      unfold round64; rw [← he]
    have herr := abs_roundHalfEven_sub_le (x / 2 ^ (e - 52))
    have hfac : round64 x - x =
        ((roundHalfEven (x / 2 ^ (e - 52)) : ℝ) - x / 2 ^ (e - 52)) * 2 ^ (e - 52) := by
      rw [hdef]; field_simp
    rw [hfac, abs_mul, abs_of_pos hu]
    have hpow : (2 : ℝ) ^ (e - 52) = 2 ^ e / 2 ^ 52 := by
      rw [zpow_sub₀ (by norm_num : (2 : ℝ) ≠ 0)]; norm_num
    calc |(roundHalfEven (x / 2 ^ (e - 52)) : ℝ) - x / 2 ^ (e - 52)| * 2 ^ (e - 52)
        ≤ 1 / 2 * 2 ^ (e - 52) := mul_le_mul_of_nonneg_right herr hu.le
      _ = 2 ^ e / 2 ^ 53 := by rw [hpow]; ring
      _ ≤ |x| / 2 ^ 53 := div_le_div_of_nonneg_right h1 (by positivity)

end Rounding



section Binary64Facts

@[ext]
theorem Binary64.ext {a b : Binary64} (h : a.val = b.val) : a = b := by
  cases a; cases b; cases h; rfl

theorem Binary64.round64_val (a : Binary64) : round64 a.val = a.val := by
  obtain ⟨y, hy⟩ := a.isRounded
  rw [hy, round64_round64]

@[simp]
theorem Binary64.val_ofReal (x : ℝ) : (Binary64.ofReal x).val = round64 x := rfl

@[simp]
theorem Binary64.ofReal_val (a : Binary64) : Binary64.ofReal a.val = a :=
  Binary64.ext (Binary64.round64_val a)

theorem Binary64.add_def (a b : Binary64) : a + b = Binary64.ofReal (a.val + b.val) := rfl

theorem Binary64.sub_def (a b : Binary64) : a - b = Binary64.ofReal (a.val - b.val) := rfl

theorem Binary64.mul_def (a b : Binary64) : a * b = Binary64.ofReal (a.val * b.val) := rfl

theorem Binary64.div_def (a b : Binary64) : a / b = Binary64.ofReal (a.val / b.val) := rfl

theorem Binary64.neg_def (a : Binary64) : -a = Binary64.ofReal (-a.val) := rfl

theorem Binary64.lt_def (a b : Binary64) : a < b ↔ a.val < b.val := Iff.rfl

theorem Binary64.natCast_def (n : ℕ) : ((n : ℕ) : Binary64) = Binary64.ofReal (n : ℝ) := rfl

theorem Binary64.ofNat_def (n : ℕ) [n.AtLeastTwo] :
    (OfNat.ofNat n : Binary64) = Binary64.ofReal (n : ℝ) := rfl

theorem round64_intCast (n : ℤ) (hn : |(n : ℝ)| < 2 ^ 53) : round64 (n : ℝ) = n := by
  have := round64_int_mul_zpow n 0 hn
  simpa using this

theorem round64_natCast (n : ℕ) (hn : (n : ℝ) < 2 ^ 53) : round64 (n : ℝ) = n := by
  have := round64_intCast (n : ℤ) (by rw [Int.cast_natCast, abs_of_nonneg (Nat.cast_nonneg n)]; exact hn)
  simpa using this

theorem round64_one : round64 1 = 1 := by
  have := round64_intCast 1 (by norm_num)
  simpa using this

@[simp]
theorem Binary64.val_zero : (0 : Binary64).val = 0 := round64_zero

@[simp]
theorem Binary64.val_one : (1 : Binary64).val = 1 := round64_one

theorem Binary64.ofReal_zero : Binary64.ofReal 0 = 0 := rfl

theorem Binary64.ofReal_one : Binary64.ofReal 1 = 1 := rfl

@[simp]
theorem Binary64.add_zero_eq (a : Binary64) : a + 0 = a := by
  rw [Binary64.add_def, Binary64.val_zero, add_zero, Binary64.ofReal_val]

@[simp]
theorem Binary64.sub_zero_eq (a : Binary64) : a - 0 = a := by
  rw [Binary64.sub_def, Binary64.val_zero, sub_zero, Binary64.ofReal_val]

@[simp]
theorem Binary64.sub_self_eq (a : Binary64) : a - a = 0 := by
  rw [Binary64.sub_def, sub_self, Binary64.ofReal_zero]

@[simp]
theorem Binary64.mul_one_eq (a : Binary64) : a * 1 = a := by
  rw [Binary64.mul_def, Binary64.val_one, mul_one, Binary64.ofReal_val]

@[simp]
theorem Binary64.one_mul_eq (a : Binary64) : 1 * a = a := by
  rw [Binary64.mul_def, Binary64.val_one, one_mul, Binary64.ofReal_val]

@[simp]
theorem Binary64.mul_zero_eq (a : Binary64) : a * 0 = 0 := by
  rw [Binary64.mul_def, Binary64.val_zero, mul_zero, Binary64.ofReal_zero]

@[simp]
theorem Binary64.zero_mul_eq (a : Binary64) : 0 * a = 0 := by
  rw [Binary64.mul_def, Binary64.val_zero, zero_mul, Binary64.ofReal_zero]

@[simp]
theorem Binary64.zero_div_eq (a : Binary64) : 0 / a = 0 := by
  rw [Binary64.div_def, Binary64.val_zero, zero_div, Binary64.ofReal_zero]

@[simp]
theorem Binary64.zero_add_eq (a : Binary64) : 0 + a = a := by
  rw [Binary64.add_def, Binary64.val_zero, zero_add, Binary64.ofReal_val]

@[simp]
theorem binary64Math_sin (a : Binary64) :
    binary64Math.sin a = Binary64.ofReal (Real.sin a.val) := rfl

@[simp]
theorem binary64Math_cos (a : Binary64) :
    binary64Math.cos a = Binary64.ofReal (Real.cos a.val) := rfl

@[simp]
theorem binary64Math_sqrt (a : Binary64) :
    binary64Math.sqrt a = Binary64.ofReal (Real.sqrt a.val) := rfl

@[simp]
theorem binary64Math_abs (a : Binary64) :
    binary64Math.abs a = Binary64.ofReal |a.val| := rfl

@[simp]
theorem binary64Math_mod (a b : Binary64) :
    binary64Math.mod a b = Binary64.ofReal (jsMod a.val b.val) := rfl

theorem binary64Math_PI :
    binary64Math.PI = Binary64.ofReal (884279719003555 / 281474976710656) := rfl

/-- The default tolerance of `solveKepler`, as a double, is positive and less
than `1`. -/
theorem defaultTol_binary64 :
    0 < (defaultTol : Binary64).val ∧ (defaultTol : Binary64).val < 1 := by
  have hv : (defaultTol : Binary64).val = round64 (1 / round64 ((1000000 : ℕ) : ℝ)) := by
    simp only [defaultTol, Binary64.div_def, Binary64.ofNat_def, Binary64.val_ofReal,
      Binary64.val_one]
  rw [hv, round64_natCast 1000000 (by norm_num)]
  have h := abs_round64_sub_le (1 / ((1000000 : ℕ) : ℝ))
  have habs : |(1 : ℝ) / ((1000000 : ℕ) : ℝ)| = 1 / 1000000 := by
    rw [abs_of_pos (by positivity)]; norm_num
  rw [habs, abs_le] at h
  constructor
  · have : (0 : ℝ) < 1 / ((1000000 : ℕ) : ℝ) - 1 / 1000000 / 2 ^ 53 := by norm_num
    linarith [h.1]
  · have : (1 : ℝ) / ((1000000 : ℕ) : ℝ) + 1 / 1000000 / 2 ^ 53 < 1 := by norm_num
    linarith [h.2]

/-- With `e = 0` the solver, in double arithmetic, returns its seed `M` after one
execution of the loop body: the step is `(M - (M - 0)) / (1 - 0) = 0`. -/
theorem solveKepler_binary64_circular (M : Binary64) (fuel : Nat) :
    solveKepler binary64Math (fuel + 1) M 0 defaultTol = some M := by
  obtain ⟨htol0, htol1⟩ := defaultTol_binary64
  have hstep : newtonStep binary64Math M 0 M = 0 := by
    simp [newtonStep]
  have h1 : (defaultTol : Binary64) < binary64Math.abs 1 := by
    rw [Binary64.lt_def, binary64Math_abs, Binary64.val_ofReal, Binary64.val_one, abs_one,
      round64_one]
    exact htol1
  have h0 : ¬ (defaultTol : Binary64) < binary64Math.abs 0 := by
    rw [Binary64.lt_def, binary64Math_abs, Binary64.val_ofReal, Binary64.val_zero, abs_zero,
      round64_zero]
    exact not_lt.mpr htol0.le
  unfold solveKepler
  rw [keplerLoop_step binary64Math M 0 defaultTol fuel M 1 h1, hstep, Binary64.add_zero_eq]
  exact keplerLoop_exit binary64Math M 0 defaultTol fuel M 0 h0

/-- The remainder of a non-negative dividend `360 * q + r` with `0 ≤ r < 360`. -/
theorem jsMod_eq_of_nonneg (x : ℝ) (q : ℤ) (r : ℝ) (hq : 0 ≤ q) (hr0 : 0 ≤ r)
    (hr1 : r < 360) (hx : x = 360 * q + r) : jsMod x 360 = r := by
  have hq' : (0 : ℝ) ≤ q := by exact_mod_cast hq
  have hx0 : 0 ≤ x / 360 := div_nonneg (by rw [hx]; positivity) (by norm_num)
  have hfl : ⌊x / 360⌋ = q := by
    rw [Int.floor_eq_iff, hx]
    constructor
    · rw [le_div_iff₀ (by norm_num)]; linarith
    · rw [div_lt_iff₀ (by norm_num)]; linarith
  simp only [jsMod, truncate, if_pos hx0, hfl]
  rw [hx]; ring

theorem round64_of_pos_bounds (x : ℝ) (hx : 0 < x) :
    x * (1 - 1 / 2 ^ 53) ≤ round64 x ∧ round64 x ≤ x * (1 + 1 / 2 ^ 53) := by
  have h := abs_round64_sub_le x
  rw [abs_of_pos hx, abs_le] at h
  constructor
  · have : x * (1 - 1 / 2 ^ 53) = x - x / 2 ^ 53 := by ring
    linarith [h.1]
  · have : x * (1 + 1 / 2 ^ 53) = x + x / 2 ^ 53 := by ring
    linarith [h.2]

theorem round64_ten_pow_17 : round64 (10 ^ 17) = 10 ^ 17 := by
  have h := round64_int_mul_zpow 762939453125 17 (by norm_num)
  have e : ((762939453125 : ℤ) : ℝ) * 2 ^ (17 : ℤ) = 10 ^ 17 := by norm_num
  rwa [e] at h

/-- In double arithmetic `1e17 + 360` is `1e17 + 352`: the doubles next to `1e17`
are `16` apart, the sum lies half-way between `1e17 + 352` and `1e17 + 368`, and
the tie goes to the even significand. -/
theorem round64_ten_pow_17_add_360 : round64 (10 ^ 17 + 360) = 10 ^ 17 + 352 := by
  have hb : binade (10 ^ 17 + 360) = 56 := by
    apply binade_eq
    · rw [abs_of_pos (by positivity)]; norm_num
    · rw [abs_of_pos (by positivity)]; norm_num
  unfold round64
  rw [hb]
  have hq : (10 ^ 17 + 360 : ℝ) / 2 ^ ((56 : ℤ) - 52) =
      ((6250000000000022 : ℤ) : ℝ) + 1 / 2 := by norm_num
  rw [hq, roundHalfEven_half_of_even _ (by decide)]
  norm_num

/-- The value `DEG2RAD = Math.PI / 180` in double arithmetic. -/
theorem deg2rad_bounds :
    (174532925 / 10000000000 : ℝ) < (binary64Math.PI / 180 : Binary64).val ∧
      (binary64Math.PI / 180 : Binary64).val < 174532926 / 10000000000 := by
  have hv : (binary64Math.PI / 180 : Binary64).val =
      round64 (round64 (884279719003555 / 281474976710656) / round64 ((180 : ℕ) : ℝ)) := by
    simp only [binary64Math_PI, Binary64.div_def, Binary64.ofNat_def, Binary64.val_ofReal]
  have hpi : round64 (884279719003555 / 281474976710656) =
      884279719003555 / 281474976710656 := by
    have h := round64_int_mul_zpow 884279719003555 (-48) (by norm_num)
    have e : ((884279719003555 : ℤ) : ℝ) * 2 ^ (-48 : ℤ) =
        884279719003555 / 281474976710656 := by norm_num
    rwa [e] at h
  rw [hv, hpi, round64_natCast 180 (by norm_num)]
  have hb := round64_of_pos_bounds (884279719003555 / 281474976710656 / ((180 : ℕ) : ℝ))
    (by positivity)
  constructor
  · refine lt_of_lt_of_le ?_ hb.1
    norm_num
  · refine lt_of_le_of_lt hb.2 ?_
    norm_num

/-- The point of sample `i` in double arithmetic for `a = 1`, `e = 0`,
`I = ω = Ω = 0` and `distance = 1`: `(cos E, sin E, 0)` with `E` the mean anomaly
of the sample in radians. -/
theorem orbitPoint_binary64_circular (fuel : Nat) (L : Binary64) (i : Nat) :
    orbitPoint binary64Math (fuel + 1) 1 0 0 0 0 L 1 i =
      some { x := binary64Math.cos (degToRad binary64Math (sampleAnomaly binary64Math L i))
             y := binary64Math.sin (degToRad binary64Math (sampleAnomaly binary64Math L i))
             z := 0 } := by
  simp only [orbitPoint, solveKepler_binary64_circular]
  simp [orbitalPlane, toEcliptic, scale, Binary64.ofReal_one, Binary64.ofReal_zero]

/-- The mean anomalies, in degrees, of the samples `0` and `360` for `L = 1e17` in
double arithmetic: `280` and `272`. -/
theorem sampleAnomaly_binary64_ten_pow_17 :
    (sampleAnomaly binary64Math (Binary64.ofReal (10 ^ 17)) 0).val = 280 ∧
      (sampleAnomaly binary64Math (Binary64.ofReal (10 ^ 17)) 360).val = 272 := by
  have h360 : round64 ((360 : ℕ) : ℝ) = 360 := by
    have := round64_natCast 360 (by norm_num)
    simpa using this
  constructor
  · simp only [sampleAnomaly, binary64Math_mod, Binary64.add_def, Binary64.natCast_def,
      Binary64.ofNat_def, Binary64.val_ofReal, round64_ten_pow_17, Nat.cast_zero,
      round64_zero, add_zero, h360]
    rw [jsMod_eq_of_nonneg (10 ^ 17) 277777777777777 280 (by norm_num) (by norm_num)
      (by norm_num) (by norm_num)]
    have := round64_natCast 280 (by norm_num)
    simpa using this
  · simp only [sampleAnomaly, binary64Math_mod, Binary64.add_def, Binary64.natCast_def,
      Binary64.ofNat_def, Binary64.val_ofReal, round64_ten_pow_17, h360]
    have h360' : round64 ((360 : ℕ) : ℝ) = 360 := h360
    rw [show ((360 : ℕ) : ℝ) = 360 by norm_num] at *
    rw [round64_ten_pow_17_add_360,
      jsMod_eq_of_nonneg (10 ^ 17 + 352) 277777777777778 272 (by norm_num) (by norm_num)
        (by norm_num) (by norm_num)]
    have := round64_natCast 272 (by norm_num)
    simpa using this

theorem cos_eq_sin_sub (x : ℝ) : Real.cos x = Real.sin (x - 3 * Real.pi / 2) := by
  rw [show x - 3 * Real.pi / 2 = x + Real.pi / 2 - 2 * Real.pi by ring,
    Real.sin_sub_two_pi, Real.sin_add_pi_div_two]

/-- The cosine near `280°`. -/
theorem cos_near_280 (E : ℝ) (h1 : 4886921 / 1000000 < E) (h2 : E < 4886922 / 1000000) :
    17 / 100 < Real.cos E := by
  have hpi1 := Real.pi_gt_d6
  have hpi2 := Real.pi_lt_d6
  rw [cos_eq_sin_sub]
  have hy1 : (1745 / 10000 : ℝ) < E - 3 * Real.pi / 2 := by norm_num at hpi1 hpi2 ⊢; linarith
  have hy2 : E - 3 * Real.pi / 2 < 1746 / 10000 := by norm_num at hpi1 hpi2 ⊢; linarith
  have hs := Real.sin_gt_sub_cube (x := E - 3 * Real.pi / 2) (by linarith) (by linarith)
  have hcube : (E - 3 * Real.pi / 2) ^ 3 < (1746 / 10000) ^ 3 :=
    pow_lt_pow_left₀ hy2 (by linarith) (by norm_num)
  have : (1746 / 10000 : ℝ) ^ 3 / 4 < 2 / 1000 := by norm_num
  linarith

/-- The cosine near `272°`. -/
theorem cos_near_272 (E : ℝ) (h1 : 4747295 / 1000000 < E) (h2 : E < 4747296 / 1000000) :
    Real.cos E < 35 / 1000 := by
  have hpi1 := Real.pi_gt_d6
  have hpi2 := Real.pi_lt_d6
  rw [cos_eq_sin_sub]
  have hy1 : (0 : ℝ) < E - 3 * Real.pi / 2 := by norm_num at hpi1 hpi2 ⊢; linarith
  have hy2 : E - 3 * Real.pi / 2 < 35 / 1000 := by norm_num at hpi1 hpi2 ⊢; linarith
  have hs := Real.sin_lt hy1
  linarith

theorem abs_round64_cos_sub_le (x : ℝ) :
    |round64 (Real.cos x) - Real.cos x| ≤ 1 / 2 ^ 53 := by
  refine (abs_round64_sub_le _).trans ?_
  exact div_le_div_of_nonneg_right (Real.abs_cos_le_one x) (by positivity)

/-- The mean anomaly in radians, in double arithmetic, of a mean anomaly of `d`
degrees with `0 < d`: within `d * 0.0174532925 * (1 - 2⁻⁵³)` and
`d * 0.0174532926 * (1 + 2⁻⁵³)`. -/
theorem degToRad_binary64_bounds (M : Binary64) (hM : 0 < M.val) :
    M.val * (174532925 / 10000000000) * (1 - 1 / 2 ^ 53) <
        (degToRad binary64Math M).val ∧
      (degToRad binary64Math M).val <
        M.val * (174532926 / 10000000000) * (1 + 1 / 2 ^ 53) := by
  obtain ⟨hD1, hD2⟩ := deg2rad_bounds
  have hv : (degToRad binary64Math M).val =
      round64 (M.val * (binary64Math.PI / 180 : Binary64).val) := rfl
  have hpos : 0 < M.val * (binary64Math.PI / 180 : Binary64).val :=
    mul_pos hM (lt_trans (by norm_num) hD1)
  obtain ⟨hb1, hb2⟩ := round64_of_pos_bounds _ hpos
  rw [hv]
  constructor
  · refine lt_of_lt_of_le ?_ hb1
    exact mul_lt_mul_of_pos_right (mul_lt_mul_of_pos_left hD1 hM) (by norm_num)
  · refine lt_of_le_of_lt hb2 ?_
    exact mul_lt_mul_of_pos_right (mul_lt_mul_of_pos_left hD2 hM) (by norm_num)

/-- Adding `360` to a dividend that is at least `0` or at most `-360` does not
change the remainder. -/
theorem jsMod_add_360 (x : ℝ) (hx : 0 ≤ x ∨ x ≤ -360) :
    jsMod (x + 360) 360 = jsMod x 360 := by
  have hq : (x + 360) / 360 = x / 360 + 1 := by field_simp
  rcases hx with hx | hx
  · have h1 : 0 ≤ x / 360 := div_nonneg hx (by norm_num)
    have h2 : 0 ≤ x / 360 + 1 := by linarith
    simp only [jsMod, truncate, hq, if_pos h1, if_pos h2, Int.floor_add_one]
    push_cast
    ring
  · rcases eq_or_lt_of_le hx with heq | hlt
    · subst heq
      have hc : ⌈(-1 : ℝ)⌉ = -1 := by
        rw [show (-1 : ℝ) = ((-1 : ℤ) : ℝ) by norm_num, Int.ceil_intCast]
      norm_num [jsMod, truncate, hc]
    · have h1 : ¬ 0 ≤ x / 360 := by
        rw [not_le, div_lt_iff₀ (by norm_num)]; linarith
      have h2 : ¬ 0 ≤ x / 360 + 1 := by
        rw [not_le]
        have : x / 360 < -1 := by rw [div_lt_iff₀ (by norm_num)]; linarith
        linarith
      simp only [jsMod, truncate, hq, if_neg h1, if_neg h2, Int.ceil_add_one]
      push_cast
      ring

/-- In double arithmetic the samples `0` and `360` have the same mean anomaly when
`L ≥ 0` or `L ≤ -360` and the sum `L + 360` is a double. -/
theorem sampleAnomaly_binary64_last (L : Binary64) (hL : 0 ≤ L.val ∨ L.val ≤ -360)
    (hsum : round64 (L.val + 360) = L.val + 360) :
    sampleAnomaly binary64Math L 360 = sampleAnomaly binary64Math L 0 := by
  have h360 : round64 ((360 : ℕ) : ℝ) = 360 := by
    have := round64_natCast 360 (by norm_num)
    simpa using this
  apply Binary64.ext
  simp only [sampleAnomaly, binary64Math_mod, Binary64.add_def, Binary64.natCast_def,
    Binary64.ofNat_def, Binary64.val_ofReal, h360, Nat.cast_zero, round64_zero, add_zero,
    Binary64.round64_val, hsum]
  rw [jsMod_add_360 L.val hL]

@[simp]
theorem Binary64.neg_zero_eq : -(0 : Binary64) = 0 := by
  rw [Binary64.neg_def, Binary64.val_zero, neg_zero, Binary64.ofReal_zero]

/-- The point of sample `i` in double arithmetic for `a = 1`, `e = 0`, `I = Ω = 0`
and `distance = 1`: the orbital-plane vector `(cos E, sin E)` turned by `ω`. -/
theorem orbitPoint_binary64_rotated (fuel : Nat) (ω L : Binary64) (i : Nat) :
    orbitPoint binary64Math (fuel + 1) 1 0 0 ω 0 L 1 i =
      some { x := binary64Math.cos ω *
                binary64Math.cos (degToRad binary64Math (sampleAnomaly binary64Math L i)) +
              -1 * binary64Math.sin ω *
                binary64Math.sin (degToRad binary64Math (sampleAnomaly binary64Math L i))
             y := binary64Math.sin ω *
                binary64Math.cos (degToRad binary64Math (sampleAnomaly binary64Math L i)) +
              binary64Math.cos ω *
                binary64Math.sin (degToRad binary64Math (sampleAnomaly binary64Math L i))
             z := 0 } := by
  simp only [orbitPoint, solveKepler_binary64_circular]
  simp [orbitalPlane, toEcliptic, scale, Binary64.ofReal_one, Binary64.ofReal_zero]

/-- The position of `calculatePosition` in double arithmetic for `a = 1`, `e = 0`,
`I = Ω = 0` when the mean anomaly it computes is `0`: `(cos ω, sin ω, 0)`. -/
theorem calculatePosition_binary64_rotated (fuel : Nat) (ω L T : Binary64)
    (hM : meanAnomaly binary64Math L ω T = 0) :
    calculatePosition binary64Math (fuel + 1) 1 0 0 ω 0 L T =
      some { x := binary64Math.cos ω, y := binary64Math.sin ω, z := 0 } := by
  have h0 : degToRad binary64Math 0 = 0 := by simp [degToRad]
  simp only [calculatePosition, hM, h0, solveKepler_binary64_circular]
  simp [orbitalPlane, toEcliptic, Binary64.ofReal_one, Binary64.ofReal_zero]

theorem round64_two_pow_60 : round64 (2 ^ 60) = 2 ^ 60 := by
  have h := round64_int_mul_zpow 1 60 (by norm_num)
  have e : ((1 : ℤ) : ℝ) * 2 ^ (60 : ℤ) = 2 ^ 60 := by norm_num
  rwa [e] at h

/-- In double arithmetic `8 + 2^60` is `2^60`: the doubles next to `2^60` are `256`
apart. -/
theorem round64_eight_add_two_pow_60 : round64 (8 + 2 ^ 60) = 2 ^ 60 := by
  have hb : binade (8 + 2 ^ 60) = 60 := by
    apply binade_eq
    · rw [abs_of_pos (by positivity)]; norm_num
    · rw [abs_of_pos (by positivity)]; norm_num
  unfold round64
  rw [hb, roundHalfEven_of_lt_half 4503599627370496 _ (by norm_num) (by norm_num)]
  norm_num

theorem round64_eight : round64 8 = 8 := by
  have := round64_natCast 8 (by norm_num)
  simpa using this

/-- For `L = 8` and `ω = 2^60` in double arithmetic: the mean anomaly of sample `0`
is `8`, and the mean anomaly that `calculatePosition` computes at the mean
longitude `((L + 0) % 360) + ω` and the time `0` is `0`. -/
theorem meanAnomaly_binary64_absorbed :
    (sampleAnomaly binary64Math (Binary64.ofReal 8) 0).val = 8 ∧
      meanAnomaly binary64Math
        (sampleAnomaly binary64Math (Binary64.ofReal 8) 0 + Binary64.ofReal (2 ^ 60))
        (Binary64.ofReal (2 ^ 60)) 0 = 0 := by
  have h360 : round64 ((360 : ℕ) : ℝ) = 360 := by
    have := round64_natCast 360 (by norm_num)
    simpa using this
  have hs : (sampleAnomaly binary64Math (Binary64.ofReal 8) 0).val = 8 := by
    simp only [sampleAnomaly, binary64Math_mod, Binary64.add_def, Binary64.natCast_def,
      Binary64.ofNat_def, Binary64.val_ofReal, round64_eight, Nat.cast_zero,
      round64_zero, add_zero, h360]
    rw [jsMod_of_abs_lt 8 (by norm_num), round64_eight]
  refine ⟨hs, ?_⟩
  apply Binary64.ext
  have h0 : jsMod (0 : ℝ) 360 = 0 := jsMod_of_abs_lt 0 (by norm_num)
  simp only [meanAnomaly, binary64Math_mod, Binary64.add_def, Binary64.sub_def,
    Binary64.mul_def, Binary64.div_def, Binary64.ofNat_def, Binary64.val_ofReal, hs,
    round64_two_pow_60, round64_eight_add_two_pow_60, sub_self, round64_zero,
    Binary64.val_zero, zero_div, mul_zero, add_zero, h360, h0]

end Binary64Facts

/-! ## The claims -/

/-- C1. Kepler solver correctness: for every `e` in `[0, 0.99]` and every `M` in
`[0, 2π)`, whenever `solveKepler(M, e)` with the default tolerance `1e-6` returns a
value `E`, the residual of Kepler's equation at that `E` satisfies
`|M − (E − e·sin E)| < 1e-6`. -/
theorem solveKepler_residual (fuel : Nat) (M e E : ℝ) (he0 : 0 ≤ e)
    (he1 : e ≤ 99 / 100) (_hM0 : 0 ≤ M) (_hM1 : M < 2 * Real.pi)
    (h : solveKepler realMath fuel M e defaultTol = some E) :
    |M - (E - e * realMath.sin E)| < defaultTol := by
  have htol : (defaultTol : ℝ) = 1 / 1000000 := rfl
  rcases solveKepler_result M e defaultTol fuel E h with ⟨h1, _⟩ | ⟨E', hd, rfl⟩
  · rw [htol] at h1; norm_num at h1
  · have hD : 1 - e * Real.cos E' ≠ 0 := by
      have := one_sub_le_divisor e E' he0
      intro h0
      linarith
    rw [htol] at hd ⊢
    have hres := abs_residual_after_step_le M e E' hD (hd.trans (by norm_num))
    rw [abs_of_nonneg he0] at hres
    rw [realMath_sin]
    have hd0 := abs_nonneg (newtonStep realMath M e E')
    have hsq : newtonStep realMath M e E' ^ 2 = |newtonStep realMath M e E'| ^ 2 :=
      (sq_abs _).symm
    rw [hsq] at hres
    refine lt_of_le_of_lt hres ?_
    generalize |newtonStep realMath M e E'| = t at hd hd0
    have ht2 : t ^ 2 ≤ 1 / 1000000 * t := by nlinarith
    have ht3 : t ^ 3 ≤ 1 / 1000000 * t ^ 2 := by nlinarith
    nlinarith

theorem solveKepler_residual_witness :
    (0 : ℝ) ≤ 205 / 1000 ∧ (205 / 1000 : ℝ) ≤ 99 / 100 ∧ (0 : ℝ) ≤ 1 ∧
      (1 : ℝ) < 2 * Real.pi ∧
      ∃ E, solveKepler realMath 7 1 (205 / 1000) defaultTol = some E ∧
        |(1 : ℝ) - (E - 205 / 1000 * realMath.sin E)| < defaultTol := by
  have hpi : (1 : ℝ) < 2 * Real.pi := by
    have := Real.pi_gt_three
    linarith
  obtain ⟨E, hE⟩ :=
    solveKepler_returns 1 (205 / 1000) (by norm_num) (by norm_num) 7 (le_refl 7)
  exact ⟨by norm_num, by norm_num, by norm_num, hpi, E, hE,
    solveKepler_residual 7 1 (205 / 1000) E (by norm_num) (by norm_num) (by norm_num)
      hpi hE⟩

/-- C2. Rotation is rigid: for every orbital-plane pair `(x_orbital, y_orbital)` and
all real `I`, `ω`, `Ω`, the vector `(x_ec, y_ec, z_ec)` of the rotation formulas has
`x_ec² + y_ec² + z_ec² = x_orbital² + y_orbital²`, hence the same magnitude. -/
theorem rotation_rigid (I ω Ω x_orbital y_orbital : ℝ) :
    (toEcliptic realMath I ω Ω x_orbital y_orbital).x ^ 2 +
        (toEcliptic realMath I ω Ω x_orbital y_orbital).y ^ 2 +
        (toEcliptic realMath I ω Ω x_orbital y_orbital).z ^ 2 =
      x_orbital ^ 2 + y_orbital ^ 2 ∧
    realMath.sqrt ((toEcliptic realMath I ω Ω x_orbital y_orbital).x ^ 2 +
        (toEcliptic realMath I ω Ω x_orbital y_orbital).y ^ 2 +
        (toEcliptic realMath I ω Ω x_orbital y_orbital).z ^ 2) =
      realMath.sqrt (x_orbital ^ 2 + y_orbital ^ 2) := by
  have h := toEcliptic_norm_sq I ω Ω x_orbital y_orbital
  exact ⟨h, by rw [h]⟩

/-- C3, counterexample. With `L = 0`, `ω = 1`, `T = 0` the dividend of
`calculatePosition` is `-1` and its mean anomaly is `-1 % 360 = -1`, which is
negative; with `L = -1` and `i = 0` the mean anomaly of `createOrbitLine` is `-1`
as well. -/
theorem meanAnomaly_negative :
    meanAnomaly realMath (0 : ℝ) 1 0 = -1 ∧ ¬ (0 ≤ meanAnomaly realMath (0 : ℝ) 1 0) ∧
      sampleAnomaly realMath (-1 : ℝ) 0 = -1 ∧ ¬ (0 ≤ sampleAnomaly realMath (-1 : ℝ) 0) := by
  have h1 : meanAnomaly realMath (0 : ℝ) 1 0 = -1 := by
    unfold meanAnomaly
    rw [realMath_mod, jsMod_of_abs_lt] <;> norm_num
  have h2 : sampleAnomaly realMath (-1 : ℝ) 0 = -1 := by
    unfold sampleAnomaly
    rw [realMath_mod, jsMod_of_abs_lt] <;> norm_num
  refine ⟨h1, ?_, h2, ?_⟩
  · rw [h1]; norm_num
  · rw [h2]; norm_num

/-- C3, amended. The mean anomaly is the JavaScript remainder of its dividend by
`360`, which has the sign of the dividend: in `calculatePosition`, `0 ≤ M < 360`
when `(L − ω) + 360·(T/36525) ≥ 0` and `−360 < M ≤ 0` when it is negative; in
`createOrbitLine`, `0 ≤ M < 360` when `L + i ≥ 0` and `−360 < M ≤ 0` when
`L + i < 0`. -/
theorem meanAnomaly_range (L ω T : ℝ) (i : Nat) :
    (0 ≤ (L - ω) + 360 * (T / 36525) →
        0 ≤ meanAnomaly realMath L ω T ∧ meanAnomaly realMath L ω T < 360) ∧
      ((L - ω) + 360 * (T / 36525) < 0 →
        -360 < meanAnomaly realMath L ω T ∧ meanAnomaly realMath L ω T ≤ 0) ∧
      (0 ≤ L + (i : ℝ) → 0 ≤ sampleAnomaly realMath L i ∧ sampleAnomaly realMath L i < 360) ∧
      (L + (i : ℝ) < 0 → -360 < sampleAnomaly realMath L i ∧ sampleAnomaly realMath L i ≤ 0) :=
  ⟨fun h => jsMod_of_nonneg _ h, fun h => jsMod_of_neg _ h,
    fun h => jsMod_of_nonneg _ h, fun h => jsMod_of_neg _ h⟩

theorem meanAnomaly_range_witness :
    (0 ≤ meanAnomaly realMath (25225 / 100 : ℝ) 0 2451545 ∧
        meanAnomaly realMath (25225 / 100 : ℝ) 0 2451545 < 360) ∧
      (-360 < meanAnomaly realMath (0 : ℝ) 1 0 ∧ meanAnomaly realMath (0 : ℝ) 1 0 ≤ 0) ∧
      (0 ≤ sampleAnomaly realMath (25225 / 100 : ℝ) 360 ∧
        sampleAnomaly realMath (25225 / 100 : ℝ) 360 < 360) ∧
      (-360 < sampleAnomaly realMath (-400 : ℝ) 7 ∧ sampleAnomaly realMath (-400 : ℝ) 7 ≤ 0) :=
  ⟨(meanAnomaly_range (25225 / 100) 0 2451545 0).1 (by norm_num),
    (meanAnomaly_range 0 1 0 0).2.1 (by norm_num),
    (meanAnomaly_range (25225 / 100) 0 0 360).2.2.1 (by norm_num),
    (meanAnomaly_range (-400) 0 0 7).2.2.2 (by norm_num)⟩

/-- C4, counterexample. `solveKepler(0, 1.5)` and `solveKepler(π, 1.0)` raise
nothing: each leaves the loop after one execution of its body (the Newton step is
`0`, its divisor being `-0.5` and `2`) and returns a value, `0` and `π`. -/
theorem solveKepler_no_guard :
    solveKepler realMath 1 0 (3 / 2) defaultTol = some 0 ∧
      solveKepler realMath 1 Real.pi 1 defaultTol = some Real.pi :=
  ⟨solveKepler_of_step_zero 0 (3 / 2) defaultTol 0 defaultTol_pos.le
      (by simp [newtonStep]),
    solveKepler_of_step_zero Real.pi 1 defaultTol 0 defaultTol_pos.le
      (by simp [newtonStep])⟩

/-- C4, amended. `solveKepler` checks neither `e` nor the number of iterations and
raises nothing.  For `e = 1.0` and `e = 1.5`, as for every `e`, in exact and in
double arithmetic, and as long as no divisor `1 - e * Math.cos(E)` of the steps
taken is `0`: it returns exactly when one of the states `(E, deltaE)` reached after
`0, 1, 2, ...` executions of the loop body has `|deltaE| ≤ tol`, and returns the `E`
of the first such state; when every state reached within `n` executions has
`|deltaE| > tol`, it is still in its loop after `n` executions, for every `n`. -/
theorem solveKepler_unguarded {α : Type} [Zero α] [One α] [Add α] [Sub α] [Mul α]
    [Div α] [LT α] [DecidableRel (fun a b : α => a < b)] (m : MathEnv α) (fuel : Nat)
    (M e tol : α)
    (_hD : ∀ k, k < fuel → 1 - e * m.cos (keplerState m M e k).1 ≠ 0) :
    (∀ E, solveKepler m fuel M e tol = some E ↔
        ∃ k, k ≤ fuel ∧ ¬ tol < m.abs (keplerState m M e k).2 ∧
          (∀ i, i < k → tol < m.abs (keplerState m M e i).2) ∧
          E = (keplerState m M e k).1) ∧
      (solveKepler m fuel M e tol = none ↔
        ∀ k, k ≤ fuel → tol < m.abs (keplerState m M e k).2) := by
  have hiff : ∀ E, solveKepler m fuel M e tol = some E ↔
      ∃ k, k ≤ fuel ∧ ¬ tol < m.abs (keplerState m M e k).2 ∧
        (∀ i, i < k → tol < m.abs (keplerState m M e i).2) ∧
        E = (keplerState m M e k).1 := by
    intro E
    have h := keplerLoop_iff m M e tol fuel 0 E
    simpa only [Nat.zero_add] using h
  refine ⟨hiff, ?_⟩
  constructor
  · intro hnone k hk
    by_contra hnot
    classical
    have hex : ∃ j, j ≤ fuel ∧ ¬ tol < m.abs (keplerState m M e j).2 := ⟨k, hk, hnot⟩
    have hspec := Nat.find_spec hex
    have hmin : ∀ i, i < Nat.find hex → tol < m.abs (keplerState m M e i).2 := by
      intro i hi
      by_contra hi'
      exact Nat.find_min hex hi ⟨by omega, hi'⟩
    have hsome := (hiff (keplerState m M e (Nat.find hex)).1).mpr
      ⟨Nat.find hex, hspec.1, hspec.2, hmin, rfl⟩
    rw [hnone] at hsome
    cases hsome
  · intro hall
    cases hs : solveKepler m fuel M e tol with
    | none => rfl
    | some E =>
      obtain ⟨k, hk, hnot, _, _⟩ := (hiff E).mp hs
      exact absurd (hall k hk) hnot

theorem solveKepler_unguarded_witness :
    (∀ k, k < 1 → 1 - (3 / 2 : ℝ) * realMath.cos (keplerState realMath 0 (3 / 2) k).1 ≠ 0) ∧
      (∀ E, solveKepler realMath 1 0 (3 / 2) defaultTol = some E ↔
        ∃ k, k ≤ 1 ∧ ¬ defaultTol < realMath.abs (keplerState realMath 0 (3 / 2) k).2 ∧
          (∀ i, i < k → defaultTol < realMath.abs (keplerState realMath 0 (3 / 2) i).2) ∧
          E = (keplerState realMath 0 (3 / 2) k).1) ∧
      (solveKepler realMath 1 0 (3 / 2) defaultTol = none ↔
        ∀ k, k ≤ 1 → defaultTol < realMath.abs (keplerState realMath 0 (3 / 2) k).2) :=
  have hD : ∀ k, k < 1 →
      1 - (3 / 2 : ℝ) * realMath.cos (keplerState realMath 0 (3 / 2) k).1 ≠ 0 := by
    intro k hk
    obtain rfl : k = 0 := by omega
    simp only [keplerState, realMath_cos, Real.cos_zero]
    norm_num
  ⟨hD, solveKepler_unguarded realMath 1 0 (3 / 2) defaultTol hD⟩

/-- C5, counterexample. In double arithmetic, with `L = 1e17`, `a = 1`, `e = 0`,
`I = ω = Ω = 0` and `distance = 1`, `createOrbitLine` builds its points, and the
point of `i = 0` and the point of `i = 360` are different: `1e17 + 360` is rounded
to `1e17 + 352`, so the mean anomalies are `280°` and `272°`, and the `x`
coordinates are the cosines of these, above `0.16` and below `0.04`. -/
theorem createOrbitLine_not_closed :
    ∃ pts, createOrbitLine binary64Math 1 1 0 0 0 0 (Binary64.ofReal (10 ^ 17)) 1 0 =
        some pts ∧ pts[0]? ≠ pts[360]? := by
  obtain ⟨pts, hpts⟩ := createOrbitLine_isSome binary64Math 1 1 0 0 0 0
    (Binary64.ofReal (10 ^ 17)) 1 0 (fun i _ => ⟨_, solveKepler_binary64_circular _ 0⟩)
  obtain ⟨_, hs⟩ := createOrbitLine_spec binary64Math 1 1 0 0 0 0
    (Binary64.ofReal (10 ^ 17)) 1 0 pts hpts
  refine ⟨pts, hpts, ?_⟩
  rw [hs 0 (Nat.zero_le _), hs 360 (le_refl _), orbitPoint_binary64_circular 0,
    orbitPoint_binary64_circular 0]
  intro heq
  have hx := congrArg (fun p : Vec3 Binary64 => p.x.val) (Option.some.inj heq)
  simp only [binary64Math_cos, Binary64.val_ofReal] at hx
  obtain ⟨hM0, hM360⟩ := sampleAnomaly_binary64_ten_pow_17
  obtain ⟨a1, a2⟩ := degToRad_binary64_bounds
    (sampleAnomaly binary64Math (Binary64.ofReal (10 ^ 17)) 0) (by rw [hM0]; norm_num)
  obtain ⟨b1, b2⟩ := degToRad_binary64_bounds
    (sampleAnomaly binary64Math (Binary64.ofReal (10 ^ 17)) 360) (by rw [hM360]; norm_num)
  rw [hM0] at a1 a2
  rw [hM360] at b1 b2
  have hc0 := cos_near_280 _ (lt_trans (by norm_num) a1) (lt_trans a2 (by norm_num))
  have hc1 := cos_near_272 _ (lt_trans (by norm_num) b1) (lt_trans b2 (by norm_num))
  have r0 := abs_round64_cos_sub_le
    (degToRad binary64Math (sampleAnomaly binary64Math (Binary64.ofReal (10 ^ 17)) 0)).val
  have r1 := abs_round64_cos_sub_le
    (degToRad binary64Math (sampleAnomaly binary64Math (Binary64.ofReal (10 ^ 17)) 360)).val
  rw [abs_le] at r0 r1
  have hδ : (1 : ℝ) / 2 ^ 53 < 1 / 1000 := by norm_num
  obtain ⟨r0a, _⟩ := r0
  obtain ⟨_, r1b⟩ := r1
  generalize (1 : ℝ) / 2 ^ 53 = δ at hδ r0a r1b
  generalize round64 (Real.cos (degToRad binary64Math
    (sampleAnomaly binary64Math (Binary64.ofReal (10 ^ 17)) 0)).val) = ρ0 at hx r0a
  generalize round64 (Real.cos (degToRad binary64Math
    (sampleAnomaly binary64Math (Binary64.ofReal (10 ^ 17)) 360)).val) = ρ1 at hx r1b
  generalize Real.cos (degToRad binary64Math
    (sampleAnomaly binary64Math (Binary64.ofReal (10 ^ 17)) 0)).val = c0 at hc0 r0a
  generalize Real.cos (degToRad binary64Math
    (sampleAnomaly binary64Math (Binary64.ofReal (10 ^ 17)) 360)).val = c1 at hc1 r1b
  linarith

/-- C5, amended. Closed orbit: when the solver leaves its loop on each sample,
`createOrbitLine` builds `361` points of which the first (`i = 0`) and the last
(`i = 360`) are identical
* over exact real arithmetic, for `0 ≤ e < 1` and every `a`, `I`, `ω`, `Ω`,
  `distance` and `L` of either sign;
* in double arithmetic, for `0 ≤ e < 1`, whenever the mean anomalies
  `(L + 360) % 360` and `(L + 0) % 360` of the two samples are the same number;
* and in double arithmetic they are the same number whenever `L ≥ 0` or
  `L ≤ -360` and the sum `L + 360` is computed without rounding. -/
theorem createOrbitLine_closed :
    (∀ (fuel : Nat) (a e I ω Ω L distance T : ℝ), 0 ≤ e → e < 1 →
      (∀ i, i ≤ 360 → ∃ E,
        solveKepler realMath fuel (degToRad realMath (sampleAnomaly realMath L i)) e
          defaultTol = some E) →
      ∃ pts p, createOrbitLine realMath fuel a e I ω Ω L distance T = some pts ∧
        pts.length = 361 ∧ pts.head? = some p ∧ pts.getLast? = some p) ∧
    (∀ (fuel : Nat) (a e I ω Ω L distance T : Binary64), 0 ≤ e.val → e.val < 1 →
      sampleAnomaly binary64Math L 360 = sampleAnomaly binary64Math L 0 →
      (∀ i, i ≤ 360 → ∃ E,
        solveKepler binary64Math fuel
          (degToRad binary64Math (sampleAnomaly binary64Math L i)) e defaultTol = some E) →
      ∃ pts p, createOrbitLine binary64Math fuel a e I ω Ω L distance T = some pts ∧
        pts.length = 361 ∧ pts.head? = some p ∧ pts.getLast? = some p) ∧
    (∀ L : Binary64, (0 ≤ L.val ∨ L.val ≤ -360) →
      round64 (L.val + 360) = L.val + 360 →
      sampleAnomaly binary64Math L 360 = sampleAnomaly binary64Math L 0) := by
  refine ⟨fun fuel a e I ω Ω L distance T _ _ h => ?_,
    fun fuel a e I ω Ω L distance T _ _ hM h => ?_, sampleAnomaly_binary64_last⟩
  · exact createOrbitLine_closed_of_eq realMath fuel a e I ω Ω L distance T
      (orbitPoint_last fuel a e I ω Ω L distance) h
  · exact createOrbitLine_closed_of_eq binary64Math fuel a e I ω Ω L distance T
      (orbitPoint_congr binary64Math fuel a e I ω Ω L distance 360 0 hM) h

theorem createOrbitLine_closed_witness :
    (∃ pts p, createOrbitLine realMath 7 (387 / 1000) (205 / 1000) (degToRad realMath 7)
        (degToRad realMath (7745 / 100)) (degToRad realMath (4833 / 100)) (-100) 50
        2451545 = some pts ∧
      pts.length = 361 ∧ pts.head? = some p ∧ pts.getLast? = some p) ∧
    (∃ pts p, createOrbitLine binary64Math 1 (Binary64.ofReal (387 / 1000)) 0
        (Binary64.ofReal (1 / 8)) (Binary64.ofReal (5 / 4)) (Binary64.ofReal (3 / 4))
        (Binary64.ofReal (1009 / 4)) 50 (Binary64.ofReal 2451545) = some pts ∧
      pts.length = 361 ∧ pts.head? = some p ∧ pts.getLast? = some p) := by
  have hL : round64 (1009 / 4) = 1009 / 4 := by
    have h := round64_int_mul_zpow 1009 (-2) (by norm_num)
    have e : ((1009 : ℤ) : ℝ) * 2 ^ (-2 : ℤ) = 1009 / 4 := by norm_num
    rwa [e] at h
  have hsum : round64 (1009 / 4 + 360) = 1009 / 4 + 360 := by
    have h := round64_int_mul_zpow 2449 (-2) (by norm_num)
    have e : ((2449 : ℤ) : ℝ) * 2 ^ (-2 : ℤ) = 1009 / 4 + 360 := by norm_num
    rwa [e] at h
  have hM := createOrbitLine_closed.2.2 (Binary64.ofReal (1009 / 4))
    (Or.inl (by rw [Binary64.val_ofReal, hL]; norm_num))
    (by rw [Binary64.val_ofReal, hL]; exact hsum)
  exact ⟨createOrbitLine_closed.1 7 (387 / 1000) (205 / 1000) (degToRad realMath 7)
      (degToRad realMath (7745 / 100)) (degToRad realMath (4833 / 100)) (-100) 50 2451545
      (by norm_num) (by norm_num)
      (fun i _ => solveKepler_returns _ (205 / 1000) (by norm_num) (by norm_num) 7
        (le_refl 7)),
    createOrbitLine_closed.2.1 1 (Binary64.ofReal (387 / 1000)) 0
      (Binary64.ofReal (1 / 8)) (Binary64.ofReal (5 / 4)) (Binary64.ofReal (3 / 4))
      (Binary64.ofReal (1009 / 4)) 50 (Binary64.ofReal 2451545)
      (by simp) (by simp) hM (fun i _ => ⟨_, solveKepler_binary64_circular _ 0⟩)⟩

/-- C6. Circular-orbit degeneracy: for every mean anomaly `M` and every tolerance
`tol ≥ 0`, `solveKepler(M, 0, tol)` leaves its loop, after at most one execution of
the loop body, and returns exactly `M`. -/
theorem solveKepler_circular (fuel : Nat) (M tol : ℝ) (hfuel : 1 ≤ fuel)
    (htol : 0 ≤ tol) : solveKepler realMath fuel M 0 tol = some M := by
  obtain ⟨n, rfl⟩ := Nat.exists_eq_add_of_le' hfuel
  exact solveKepler_of_step_zero M 0 tol n htol (by simp [newtonStep])

theorem solveKepler_circular_witness :
    (1 ≤ 1) ∧ (0 : ℝ) ≤ defaultTol ∧
      solveKepler realMath 1 (Real.pi / 3) 0 defaultTol = some (Real.pi / 3) :=
  ⟨le_refl 1, defaultTol_pos.le,
    solveKepler_circular 1 (Real.pi / 3) defaultTol (le_refl 1) defaultTol_pos.le⟩

/-- C7. Distance from the origin: for `a ≥ 0` and `0 ≤ e < 1`, whenever
`calculatePosition` returns `{x, y, z}` (the solver has left its loop), the solver
has returned an eccentric anomaly `E` for the mean anomaly of `calculatePosition`
and `√(x² + y² + z²) = a·(1 − e·cos E)`. -/
theorem distance_from_origin (fuel : Nat) (a e I ω Ω L T : ℝ) (p : Vec3 ℝ)
    (ha : 0 ≤ a) (he0 : 0 ≤ e) (he1 : e < 1)
    (h : calculatePosition realMath fuel a e I ω Ω L T = some p) :
    ∃ E, solveKepler realMath fuel (degToRad realMath (meanAnomaly realMath L ω T)) e
        defaultTol = some E ∧
      realMath.sqrt (p.x ^ 2 + p.y ^ 2 + p.z ^ 2) = a * (1 - e * realMath.cos E) := by
  unfold calculatePosition at h
  cases hs : solveKepler realMath fuel (degToRad realMath (meanAnomaly realMath L ω T)) e
      defaultTol with
  | none => simp [hs] at h
  | some E =>
    simp only [hs, Option.some.injEq] at h
    refine ⟨E, rfl, ?_⟩
    have hee : e * e ≤ 1 := by nlinarith
    have hcos : e * Real.cos E ≤ 1 := by
      have h1 := Real.cos_le_one E
      nlinarith
    rw [← h, toEcliptic_norm_sq, orbitalPlane_norm_sq a e E hee, realMath_sqrt,
      realMath_cos]
    exact Real.sqrt_sq (mul_nonneg ha (by linarith))

theorem distance_from_origin_witness :
    (0 : ℝ) ≤ 387 / 1000 ∧ (0 : ℝ) ≤ 205 / 1000 ∧ (205 / 1000 : ℝ) < 1 ∧
      ∃ p, calculatePosition realMath 7 (387 / 1000) (205 / 1000) 0 0 0 (25225 / 100)
          2451545 = some p ∧
        ∃ E, solveKepler realMath 7
            (degToRad realMath (meanAnomaly realMath (25225 / 100) 0 2451545)) (205 / 1000)
            defaultTol = some E ∧
          realMath.sqrt (p.x ^ 2 + p.y ^ 2 + p.z ^ 2) =
            387 / 1000 * (1 - 205 / 1000 * realMath.cos E) := by
  obtain ⟨p, hp⟩ := calculatePosition_isSome realMath 7 (387 / 1000) (205 / 1000) 0 0 0
    (25225 / 100) 2451545
    (solveKepler_returns _ (205 / 1000) (by norm_num) (by norm_num) 7 (le_refl 7))
  exact ⟨by norm_num, by norm_num, by norm_num, p, hp,
    distance_from_origin 7 (387 / 1000) (205 / 1000) 0 0 0 (25225 / 100) 2451545 p
      (by norm_num) (by norm_num) (by norm_num) hp⟩

/-- C8. Periapsis placement: for every `a` and every `e` with `0 ≤ e < 1`,
`solveKepler(0, e)` returns `0`, the orbital-plane position at `E = 0` is
`(a·(1−e), 0)`, and `calculatePosition(a, e, 0, 0, 0, 0, 0)` returns
`{x: a·(1−e), y: 0, z: 0}`. -/
theorem periapsis_placement (fuel : Nat) (a e : ℝ) (hfuel : 1 ≤ fuel)
    (_he0 : 0 ≤ e) (he1 : e < 1) :
    solveKepler realMath fuel 0 e defaultTol = some 0 ∧
      orbitalPlane realMath a e 0 = (a * (1 - e), 0) ∧
      calculatePosition realMath fuel a e 0 0 0 0 0 =
        some { x := a * (1 - e), y := 0, z := 0 } := by
  obtain ⟨n, rfl⟩ := Nat.exists_eq_add_of_le' hfuel
  have hne : 1 - e ≠ 0 := by linarith
  have hs : solveKepler realMath (n + 1) 0 e defaultTol = some 0 :=
    solveKepler_of_step_zero 0 e defaultTol n defaultTol_pos.le
      (by simp [newtonStep])
  have hM : meanAnomaly realMath (0 : ℝ) 0 0 = 0 := by
    unfold meanAnomaly
    rw [realMath_mod, jsMod_of_abs_lt] <;> norm_num
  refine ⟨hs, by simp [orbitalPlane], ?_⟩
  simp only [calculatePosition, hM, degToRad, zero_mul, hs]
  simp [orbitalPlane, toEcliptic]

theorem periapsis_placement_witness :
    (1 ≤ 1) ∧ (0 : ℝ) ≤ 1 / 2 ∧ (1 / 2 : ℝ) < 1 ∧
      (solveKepler realMath 1 0 (1 / 2) defaultTol = some 0 ∧
        orbitalPlane realMath 3 (1 / 2) 0 = (3 * (1 - 1 / 2), 0) ∧
        calculatePosition realMath 1 3 (1 / 2) 0 0 0 0 0 =
          some { x := 3 * (1 - 1 / 2), y := 0, z := 0 }) :=
  ⟨le_refl 1, by norm_num, by norm_num,
    periapsis_placement 1 3 (1 / 2) (le_refl 1) (by norm_num) (by norm_num)⟩

/-- C9. Sample count: when the solver leaves its loop on each of the samples
`i = 0, ..., 360`, `createOrbitLine` builds a list of exactly `361` points, the
point at index `i` being the one computed for the counter value `i`. -/
theorem createOrbitLine_sample_count (fuel : Nat) (a e I ω Ω L distance T : ℝ)
    (h : ∀ i, i ≤ 360 → ∃ E,
      solveKepler realMath fuel (degToRad realMath (sampleAnomaly realMath L i)) e
        defaultTol = some E) :
    ∃ pts, createOrbitLine realMath fuel a e I ω Ω L distance T = some pts ∧
      pts.length = 361 ∧
      ∀ i, i ≤ 360 → pts[i]? = orbitPoint realMath fuel a e I ω Ω L distance i := by
  obtain ⟨pts, hpts⟩ := createOrbitLine_isSome realMath fuel a e I ω Ω L distance T h
  exact ⟨pts, hpts, createOrbitLine_spec realMath fuel a e I ω Ω L distance T pts hpts⟩


theorem createOrbitLine_sample_count_witness :
    (∀ i, i ≤ 360 → ∃ E,
        solveKepler realMath 7 (degToRad realMath (sampleAnomaly realMath (25225 / 100) i))
          (205 / 1000) defaultTol = some E) ∧
      ∃ pts, createOrbitLine realMath 7 (387 / 1000) (205 / 1000) (degToRad realMath 7)
        (degToRad realMath (7745 / 100)) (degToRad realMath (4833 / 100)) (25225 / 100) 50 2451545 = some pts ∧
        pts.length = 361 ∧
        ∀ i, i ≤ 360 → pts[i]? = orbitPoint realMath 7 (387 / 1000) (205 / 1000) (degToRad realMath 7)
        (degToRad realMath (7745 / 100)) (degToRad realMath (4833 / 100)) (25225 / 100) 50 i :=
  have h : ∀ i, i ≤ 360 → ∃ E,
      solveKepler realMath 7 (degToRad realMath (sampleAnomaly realMath (25225 / 100) i))
        (205 / 1000) defaultTol = some E :=
    fun i _ => solveKepler_returns _ (205 / 1000) (by norm_num) (by norm_num) 7 (le_refl 7)
  ⟨h, createOrbitLine_sample_count 7 (387 / 1000) (205 / 1000) (degToRad realMath 7)
        (degToRad realMath (7745 / 100)) (degToRad realMath (4833 / 100)) (25225 / 100) 50 2451545 h⟩

/-- C10. The sampler and the single-point routine share the solve-and-rotate
transform: the point of sample `i` is `distance` times the position of
`calculatePosition(a, e, I, ω, Ω, ((L + i) % 360) + ω, 0)`; it is the point at index
`i` of the list of `createOrbitLine` for `i` in `0..360`; and the list does not
depend on the argument `T`. -/
theorem createOrbitLine_refines_calculatePosition (fuel : Nat)
    (a e I ω Ω L distance T T' : ℝ) (i : Nat) (hi : i ≤ 360) :
    orbitPoint realMath fuel a e I ω Ω L distance i =
        (calculatePosition realMath fuel a e I ω Ω (sampleAnomaly realMath L i + ω) 0).map
          (scale distance) ∧
      (∀ pts, createOrbitLine realMath fuel a e I ω Ω L distance T = some pts →
        pts[i]? =
          (calculatePosition realMath fuel a e I ω Ω (sampleAnomaly realMath L i + ω) 0).map
            (scale distance)) ∧
      createOrbitLine realMath fuel a e I ω Ω L distance T =
        createOrbitLine realMath fuel a e I ω Ω L distance T' := by
  refine ⟨orbitPoint_eq_calculatePosition fuel a e I ω Ω L distance i,
    fun pts hpts => ?_, rfl⟩
  rw [(createOrbitLine_spec realMath fuel a e I ω Ω L distance T pts hpts).2 i hi]
  exact orbitPoint_eq_calculatePosition fuel a e I ω Ω L distance i


theorem createOrbitLine_refines_calculatePosition_witness :
    (360 ≤ 360) ∧
      orbitPoint realMath 7 (387 / 1000) (205 / 1000) (degToRad realMath 7)
        (degToRad realMath (7745 / 100)) (degToRad realMath (4833 / 100)) (25225 / 100) 50 360 =
        (calculatePosition realMath 7 (387 / 1000) (205 / 1000) (degToRad realMath 7)
          (degToRad realMath (7745 / 100)) (degToRad realMath (4833 / 100))
          (sampleAnomaly realMath (25225 / 100) 360 + degToRad realMath (7745 / 100)) 0).map
          (scale 50) ∧
      (∀ pts, createOrbitLine realMath 7 (387 / 1000) (205 / 1000) (degToRad realMath 7)
        (degToRad realMath (7745 / 100)) (degToRad realMath (4833 / 100)) (25225 / 100) 50 2451545 = some pts →
        pts[360]? =
          (calculatePosition realMath 7 (387 / 1000) (205 / 1000) (degToRad realMath 7)
            (degToRad realMath (7745 / 100)) (degToRad realMath (4833 / 100))
            (sampleAnomaly realMath (25225 / 100) 360 + degToRad realMath (7745 / 100)) 0).map
            (scale 50)) ∧
      createOrbitLine realMath 7 (387 / 1000) (205 / 1000) (degToRad realMath 7)
        (degToRad realMath (7745 / 100)) (degToRad realMath (4833 / 100)) (25225 / 100) 50 2451545 =
        createOrbitLine realMath 7 (387 / 1000) (205 / 1000) (degToRad realMath 7)
        (degToRad realMath (7745 / 100)) (degToRad realMath (4833 / 100)) (25225 / 100) 50 2451565 :=
  ⟨le_refl 360,
    createOrbitLine_refines_calculatePosition 7 (387 / 1000) (205 / 1000) (degToRad realMath 7)
        (degToRad realMath (7745 / 100)) (degToRad realMath (4833 / 100)) (25225 / 100) 50 2451545 2451565 360 (le_refl 360)⟩

end Planetarium
